import Mathlib

/-!
Verification of the calm route-definition and request-dispatch core
(src/calm/core.py and src/calm/handler.py) against its specification.

The embedding translates the Python source function by function:
pure helpers become Lean functions, exceptions become Except values,
and the per-request dispatch pipeline becomes an explicit result record.
The modules calm/ex.py and calm/codec.py are not present under src/;
the definitions standing in for them are marked "Modelled from the spec".
-/

/-! ## Path template compiler (core.py, CalmApp._normalize_uri) -/

/-- A character allowed inside a path-parameter name: the regex
`:([^\/\?:]*)` (core.py line 39) captures runs of characters that are
not a slash, a question mark or a colon. -/
def nameChar (c : Char) : Bool :=
  !(c = '/' || c = '?' || c = ':')

/-- The replacement text for a path parameter `name`: the named capture
group `(?P<name>[^\/\?]*)` written in core.py line 129. -/
def captureOf (name : List Char) : List Char :=
  "(?P<".toList ++ name ++ ">[^\\/\\?]*)".toList

/-- `re.findall(r":([^\/\?:]*)", s)`: every colon in `s` starts a match;
the captured group is the maximal run of name characters after it
(core.py line 125). -/
def findall : List Char → List (List Char)
  | [] => []
  | c :: rest =>
    if c = ':' then
      rest.takeWhile nameChar :: findall (rest.dropWhile nameChar)
    else
      findall rest
termination_by s => s.length
decreasing_by
  · exact Nat.lt_succ_of_le (by simpa using (List.dropWhile_suffix nameChar).sublist.length_le)
  · simp

/-- Python `str.replace(pat, rep)`: replace every occurrence of `pat`,
scanning left to right, non-overlapping. Used to model
`uri.replace(":" + path_param, ...)` in core.py lines 127-130.
The pattern is always nonempty here (it starts with a colon). -/
def replaceAll (pat rep : List Char) : List Char → List Char
  | [] => []
  | c :: rest =>
    if pat ≠ [] ∧ pat.isPrefixOf (c :: rest) then
      rep ++ replaceAll pat rep ((c :: rest).drop pat.length)
    else
      c :: replaceAll pat rep rest
termination_by s => s.length
decreasing_by
  · rename_i h
    have hlen : pat.length ≠ 0 := by
      simpa [List.length_eq_zero] using h.1
    simp only [List.length_drop, List.length_cons]
    omega
  · simp

/-- Python `str.strip("/")`: remove leading and trailing slashes
(core.py line 121). -/
def stripSlashes (s : String) : List Char :=
  ((s.toList.dropWhile (fun c => c = '/')).reverse.dropWhile (fun c => c = '/')).reverse

/-- `"/".join(u.strip("/") for u in uri_fragments)` (core.py lines
120-122), working at the character level. -/
def joinFragments : List String → List Char
  | [] => []
  | [u] => stripSlashes u
  | u :: rest => stripSlashes u ++ '/' :: joinFragments rest

/-- The uri before path-parameter rewriting: fragments joined with `/`,
stripped, prefixed with `/` and suffixed with the optional-trailing-slash
allowance `/?` (core.py line 123). -/
def preUri (frags : List String) : List Char :=
  '/' :: (joinFragments frags ++ ['/', '?'])

/-- `CalmApp._normalize_uri` (core.py lines 118-132): build the joined
uri, find all path parameters, then replace every occurrence of
`:name` by its capture group, one parameter at a time in the order
`re.findall` returned them. -/
def normalizeUri (frags : List String) : String :=
  let uri := preUri frags
  String.mk ((findall uri).foldl
    (fun u n => replaceAll (':' :: n) (captureOf n) u) uri)

/-- Modelled from the spec (section 4.1): compilation rewrites
"every occurrence of `:name` (name = any run of characters excluding
`/`, `?`, `:`)" into a named capture, in one pass over the joined uri.
This is the wording of the spec, kept separate from `normalizeUri`,
which is the source's two-phase find-then-replace algorithm. -/
def specRewrite : List Char → List Char
  | [] => []
  | c :: rest =>
    if c = ':' then
      captureOf (rest.takeWhile nameChar) ++ specRewrite (rest.dropWhile nameChar)
    else
      c :: specRewrite rest
termination_by s => s.length
decreasing_by
  · exact Nat.lt_succ_of_le (by simpa using (List.dropWhile_suffix nameChar).sublist.length_le)
  · simp

/-- Modelled from the spec (section 4.1): the compiled pattern for a
fragment tuple, per the spec's words. -/
def normalizeUriSpec (frags : List String) : String :=
  String.mk (specRewrite (preUri frags))

/-- One-pass rewriting of only those parameter runs selected by `P`;
`specRewrite` is the instance where every run is selected, and the
identity is the instance where none is. Used to track the intermediate
states of `normalizeUri`'s replacement loop. -/
def markedRewrite (P : List Char → Bool) : List Char → List Char
  | [] => []
  | c :: rest =>
    if c = ':' then
      (if P (rest.takeWhile nameChar) then captureOf (rest.takeWhile nameChar)
       else ':' :: rest.takeWhile nameChar)
        ++ markedRewrite P (rest.dropWhile nameChar)
    else
      c :: markedRewrite P rest
termination_by s => s.length
decreasing_by
  · exact Nat.lt_succ_of_le (by simpa using (List.dropWhile_suffix nameChar).sublist.length_le)
  · simp

/-- No collected parameter name is a proper prefix of another: the
side condition under which the source's sequential replacement loop
agrees with the spec's one-pass rewriting. -/
def prefixFree (names : List (List Char)) : Prop :=
  ∀ a ∈ names, ∀ b ∈ names, (a.isPrefixOf b → a = b) ∧ (b.isPrefixOf a → a = b)

instance (names : List (List Char)) : Decidable (prefixFree names) := by
  unfold prefixFree; infer_instance

/-! ## Error taxonomy (calm/ex.py, absent from src/) -/

/-- Modelled from the spec (sections 3 and 7): calm/ex.py is not under
src/. The error kinds: `DefinitionError` (registration-time, fatal),
`BadRequestError` (400), `MethodNotAllowedError` (405), `NotFoundError`
(404) — the three client kinds carry an HTTP status and a message — and
`ServerError` (500, message never exposed verbatim). -/
inductive CalmError where
  | DefinitionError (msg : String)
  | BadRequestError (msg : String)
  | MethodNotAllowedError
  | NotFoundError
  | ServerError (msg : String)
deriving DecidableEq, Repr

/-- Modelled from the spec (section 7): the HTTP status associated with
each error kind. -/
def CalmError.code : CalmError → Nat
  | .BadRequestError _ => 400
  | .MethodNotAllowedError => 405
  | .NotFoundError => 404
  | _ => 500

/-- Modelled from the spec (section 7): the client-caused kinds, caught
by `MainHandler.write_error` through the `ClientError` superclass
(handler.py line 152). -/
def CalmError.isClientError : CalmError → Bool
  | .BadRequestError _ => true
  | .MethodNotAllowedError => true
  | .NotFoundError => true
  | _ => false

/-- Modelled from the spec (section 7): the message a client error
carries onto the wire (`exc.message or str(exc)`, handler.py line 161). -/
def CalmError.clientMessage : CalmError → String
  | .BadRequestError m => m
  | .MethodNotAllowedError => "Method not allowed"
  | .NotFoundError => "Not found"
  | .DefinitionError m => m
  | .ServerError m => m

/-- What registration-time construction of a `HandlerDef` can raise:
a calm error (`DefinitionError`, from the argument-contract checks) or
`re.error` escaping `re.compile(self.uri)` (core.py line 250), which
is a standard-library exception, not a calm error at all. -/
inductive RegError where
  | calm (e : CalmError)
  | reError (msg : String)
deriving DecidableEq, Repr

/-! ## Values and JSON serialization (handler.py, MainHandler._write_response) -/

/-- A Python value as the dispatcher sees one: JSON scalars and
containers, plus `obj`, an instance of a user class carrying its type
name and, when the class defines `__json__`, that method's result. -/
inductive PyVal where
  | pyNone
  | str (s : String)
  | int (n : Int)
  | bool (b : Bool)
  | list (xs : List PyVal)
  | dict (kvs : List (String × PyVal))
  | obj (typeName : String) (jsonMethod : Option PyVal)

/-- Python `type(v).__name__` for the values of `PyVal`. -/
def PyVal.pyTypeName : PyVal → String
  | .pyNone => "NoneType"
  | .str _ => "str"
  | .int _ => "int"
  | .bool _ => "bool"
  | .list _ => "list"
  | .dict _ => "dict"
  | .obj t _ => t

mutual
/-- `json.dumps`: serialize a value to its JSON text, or fail (Python
raises `TypeError`) when a non-serializable object occurs anywhere in
the value. `json.dumps` does not consult `__json__` on nested values. -/
def PyVal.dumps : PyVal → Option String
  | .pyNone => some "null"
  | .str s => some ("\"" ++ s ++ "\"")
  | .int n => some (toString n)
  | .bool b => some (if b then "true" else "false")
  | .list xs => (PyVal.dumpsList xs).map (fun ss => "[" ++ String.intercalate ", " ss ++ "]")
  | .dict kvs => (PyVal.dumpsPairs kvs).map (fun ss => "\x7b" ++ String.intercalate ", " ss ++ "\x7d")
  | .obj _ _ => none

/-- Serialize each element of a list, failing if any element fails. -/
def PyVal.dumpsList : List PyVal → Option (List String)
  | [] => some []
  | v :: vs => do
    let s ← PyVal.dumps v
    let ss ← PyVal.dumpsList vs
    pure (s :: ss)

/-- Serialize each key-value pair of a dict, failing if any value fails. -/
def PyVal.dumpsPairs : List (String × PyVal) → Option (List String)
  | [] => some []
  | (k, v) :: kvs => do
    let s ← PyVal.dumps v
    let ss ← PyVal.dumpsPairs kvs
    pure (("\"" ++ k ++ "\": " ++ s) :: ss)
end

/-! ## Type coercion (calm/codec.py, absent from src/) -/

/-- The coercion-type tags of section 4.4: string, integer, boolean and
list-of-T. A handler annotation is recorded opaquely as one of these. -/
inductive TypeTag where
  | tStr
  | tInt
  | tBool
  | tList (t : TypeTag)
deriving DecidableEq, Repr

/-- Digits of a decimal literal folded to an integer. -/
def digitsVal (ds : List Char) : Int :=
  ds.foldl (fun a c => a * 10 + (Int.ofNat (c.toNat - 48))) 0

/-- Python `int(s)` on a plain decimal string: an optional minus sign
followed by at least one digit; anything else fails. -/
def parseIntStr (s : String) : Option Int :=
  match s.toList with
  | [] => none
  | '-' :: ds => if ds ≠ [] ∧ ds.all Char.isDigit then some (-(digitsVal ds)) else none
  | ds => if ds ≠ [] ∧ ds.all Char.isDigit then some (digitsVal ds) else none

mutual
/-- Modelled from the spec (section 4.4): calm/codec.py's
`ArgumentParser` is not under src/. `coerce(declared_type, raw) ->
value` converts a raw string into the declared target type and "must
fail with a client-classified error when the raw value cannot be
parsed into the declared type"; so every failure is a
`BadRequestError`. -/
def ArgumentParser.parse : TypeTag → PyVal → Except CalmError PyVal
  | .tStr, .str s => .ok (.str s)
  | .tInt, .str s =>
    match parseIntStr s with
    | some n => .ok (.int n)
    | none => .error (.BadRequestError ("Bad value for int argument: " ++ s))
  | .tBool, .str s =>
    if s = "true" then .ok (.bool true)
    else if s = "false" then .ok (.bool false)
    else .error (.BadRequestError ("Bad value for bool argument: " ++ s))
  | .tList t, .list xs =>
    match ArgumentParser.parseList t xs with
    | .ok vs => .ok (.list vs)
    | .error e => .error e
  | .tList t, v =>
    match ArgumentParser.parse t v with
    | .ok v' => .ok (.list [v'])
    | .error e => .error e
  | _, v => .error (.BadRequestError ("Bad value for typed argument: " ++ v.pyTypeName))

/-- Modelled from the spec (section 4.4): elementwise coercion for the
list-of-T type, failing on the first element that cannot be parsed. -/
def ArgumentParser.parseList (t : TypeTag) : List PyVal → Except CalmError (List PyVal)
  | [] => .ok []
  | x :: xs =>
    match ArgumentParser.parse t x with
    | .error e => .error e
    | .ok v =>
      match ArgumentParser.parseList t xs with
      | .error e => .error e
      | .ok vs => .ok (v :: vs)
end

/-! ## Argument contract extraction (core.py, HandlerDef) -/

/-- One formal parameter of a user handler: its name, its default value
when one is declared (`inspect.Parameter.default`, `none` standing for
`Parameter.empty`), and its declared type annotation when one is
present. -/
structure Param where
  name : String
  dflt : Option PyVal
  annot : Option TypeTag

/-- The request body as the handler receives it: the raw (undecoded)
bytes when no JSON parsing happened, or the parsed JSON value after
`_parse_and_update_body` replaced `request.body` (handler.py line 91). -/
inductive BodyState where
  | raw (s : String)
  | parsed (v : PyVal)

/-- A user handler function: its `__name__`, its full parameter list
(the first parameter is the request object), whether it was defined
`async` (`inspect.iscoroutinefunction`), and its body, a function from
the request body and the bound keyword arguments to the return value. -/
structure Handler where
  name : String
  params : List Param
  isCoroutine : Bool
  run : BodyState → List (String × PyVal) → PyVal

/-- `handler.__annotations__.get(arg)` (handler.py line 79): the
declared type of a parameter, looked up by name. -/
def Handler.annotOf (h : Handler) (arg : String) : Option TypeTag :=
  (h.params.find? (fun p => p.name == arg)).bind (fun p => p.annot)

/-- Whether a regex group name is admissible to `re.compile`: Python
requires `name.isidentifier()`, here in its ASCII form (a letter or
underscore, then letters, digits or underscores). -/
def validGroupName : List Char → Bool
  | [] => false
  | c :: rest =>
    (c.isAlpha || c = '_') && rest.all (fun d => d.isAlphanum || d = '_')

/-- `re.compile(self.uri)` (core.py line 250), as far as `HandlerDef`
uses it: scan the pattern text and register each named group
`(?P<name>...)` in order of appearance. Like the standard library it
fails with `re.error` — modelled as an (abridged) message — when a
group name is not a valid identifier or when it is registered a second
time; on success the accumulated registration order is
`groupindex.keys()`. -/
def reGroupIndex (seen : List (List Char)) : List Char → Except String (List (List Char))
  | '(' :: '?' :: 'P' :: '<' :: rest =>
    let n := rest.takeWhile (fun c => c ≠ '>')
    if validGroupName n = false then
      .error ("bad character in group name " ++ String.mk n)
    else if seen.contains n then
      .error ("redefinition of group name " ++ String.mk n)
    else
      reGroupIndex (seen ++ [n]) (rest.dropWhile (fun c => c ≠ '>'))
  | _ :: rest => reGroupIndex seen rest
  | [] => .ok seen
termination_by s => s.length
decreasing_by
  · exact Nat.lt_of_le_of_lt (by simpa using (List.dropWhile_suffix (fun c => c ≠ '>')).sublist.length_le) (by simp; omega)
  · simp

/-- The route descriptor `HandlerDef` (core.py lines 219-284): the
compiled uri, the handler, the capture names (`path_args`), the query
arguments mapped to their required flag (`query_args`, `true` =
required = no default), and the opaque consumes/produces tags. -/
structure HandlerDef where
  uri : String
  handler : Handler
  pathArgs : List String
  queryArgs : List (String × Bool)
  consumes : Option String
  produces : Option String

/-- `inspect.signature(handler).parameters` minus the first parameter
(core.py lines 234-238): the parameters taking part in the argument
contract. -/
def contractParams (h : Handler) : List Param :=
  h.params.drop 1

/-- The loop body of `HandlerDef._extract_path_args` (core.py lines
253-269): for every capture name, a same-named parameter must exist
(else `DefinitionError` "must be expected by") and must carry no
default (else `DefinitionError` "must not be optional in"). -/
def extractPathArgsCheck (hname : String) (params : List Param) : List String → Except CalmError Unit
  | [] => .ok ()
  | a :: rest =>
    match params.find? (fun p => p.name == a) with
    | some p =>
      if p.dflt.isSome then
        .error (.DefinitionError ("Path argument " ++ a ++ " must not be optional in " ++ hname))
      else
        extractPathArgsCheck hname params rest
    | none => .error (.DefinitionError ("Path argument " ++ a ++ " must be expected by " ++ hname))

/-- `HandlerDef._extract_query_arguments` (core.py lines 271-279):
every parameter that is not a path argument becomes a query argument;
its flag records `param.default is Parameter.empty`, i.e. whether it is
required. -/
def extractQueryArgs (pathArgs : List String) (params : List Param) : List (String × Bool) :=
  params.filterMap (fun p =>
    if pathArgs.contains p.name then none else some (p.name, p.dflt.isNone))

/-- `HandlerDef.__init__` (core.py lines 228-246): store the uri and
handler and run `_extract_arguments`; `_extract_path_args` first
compiles the uri — `re.error` escapes when that fails — then reads the
capture names from `groupindex` and checks them against the contract
parameters, raising `DefinitionError` on a violation. -/
def HandlerDef.make (uri : String) (h : Handler) : Except RegError HandlerDef :=
  match reGroupIndex [] uri.toList with
  | .error msg => .error (.reError msg)
  | .ok names =>
    let pathArgs := names.map String.mk
    match extractPathArgsCheck h.name (contractParams h) pathArgs with
    | .error e => .error (.calm e)
    | .ok _ => .ok ⟨uri, h, pathArgs, extractQueryArgs pathArgs (contractParams h), none, none⟩

/-! ## Request dispatcher (handler.py, MainHandler) -/

/-- Python `str.lower()` on one ASCII character, written out so that
it computes by reduction. HTTP method names are ASCII. -/
def lowerChar : Char → Char
  | 'A' => 'a' | 'B' => 'b' | 'C' => 'c' | 'D' => 'd' | 'E' => 'e'
  | 'F' => 'f' | 'G' => 'g' | 'H' => 'h' | 'I' => 'i' | 'J' => 'j'
  | 'K' => 'k' | 'L' => 'l' | 'M' => 'm' | 'N' => 'n' | 'O' => 'o'
  | 'P' => 'p' | 'Q' => 'q' | 'R' => 'r' | 'S' => 's' | 'T' => 't'
  | 'U' => 'u' | 'V' => 'v' | 'W' => 'w' | 'X' => 'x' | 'Y' => 'y'
  | 'Z' => 'z'
  | c => c

/-- Python `str.lower()` (`http_method.lower()`, core.py line 156). -/
def lowerStr (s : String) : String :=
  String.mk (s.toList.map lowerChar)

/-- An incoming request as the dispatcher consumes it: the query
parameters (name-value pairs, in order) and the raw body. -/
structure Request where
  query : List (String × String)
  body : String

/-- Tornado's `self.get_query_argument(name)`: the last value supplied
for `name`, or a missing-argument failure (`MissingArgumentError`,
modelled as `none`) when the request carries none. -/
def Request.getQueryArgument (req : Request) (name : String) : Option String :=
  ((req.query.filter (fun kv => kv.1 == name)).map (fun kv => kv.2)).getLast?

/-- `MainHandler._get_query_args` (handler.py lines 59-73): read each
declared query argument; a missing optional one is skipped, a missing
required one raises `BadRequestError`. -/
def getQueryArgs (req : Request) : List (String × Bool) → Except CalmError (List (String × String))
  | [] => .ok []
  | (qarg, isRequired) :: rest =>
    match req.getQueryArgument qarg with
    | some v =>
      match getQueryArgs req rest with
      | .ok tail => .ok ((qarg, v) :: tail)
      | .error e => .error e
    | none =>
      if isRequired then
        .error (.BadRequestError ("Missing required query argument " ++ qarg))
      else
        getQueryArgs req rest

/-- Python `dict.__setitem__`: overwrite the value at an existing key,
else append the new pair. -/
def dictSet {α : Type} (d : List (String × α)) (k : String) (v : α) : List (String × α) :=
  if d.any (fun kv => kv.1 == k) then
    d.map (fun kv => if kv.1 == k then (k, v) else kv)
  else
    d ++ [(k, v)]

/-- Python `dict.update`: set every pair of `upd` in turn. Models
`kwargs.update(self._get_query_args(handler_def))` (handler.py
line 103). -/
def dictUpdate {α : Type} (d : List (String × α)) (upd : List (String × α)) : List (String × α) :=
  upd.foldl (fun acc kv => dictSet acc kv.1 kv.2) d

/-- `MainHandler._cast_args` (handler.py lines 75-84): walk the
argument dict; an argument whose parameter carries no annotation is
left untouched, one with an annotation is replaced by the parsed
value; a parse failure propagates. -/
def castArgs (h : Handler) : List (String × PyVal) → Except CalmError (List (String × PyVal))
  | [] => .ok []
  | (k, v) :: rest =>
    match h.annotOf k with
    | none =>
      match castArgs h rest with
      | .ok tail => .ok ((k, v) :: tail)
      | .error e => .error e
    | some t =>
      match ArgumentParser.parse t v with
      | .ok v' =>
        match castArgs h rest with
        | .ok tail => .ok ((k, v') :: tail)
        | .error e => .error e
      | .error e => .error e

/-- `MainHandler._parse_and_update_body` (handler.py lines 86-95): a
non-empty body is decoded as JSON — `json.loads` is the standard
library's decoder, taken as a parameter `jsonLoads` with `none` for a
`JSONDecodeError` — and replaces `request.body`; malformed JSON raises
`BadRequestError`; an empty body is left as the raw bytes. -/
def parseBody (jsonLoads : String → Option PyVal) (req : Request) : Except CalmError BodyState :=
  if req.body = "" then
    .ok (.raw req.body)
  else
    match jsonLoads req.body with
    | some v => .ok (.parsed v)
    | none => .error (.BadRequestError "Malformed request body. JSON is expected.")

/-- Python's call protocol for `handler(self.request, **kwargs)`: each
contract parameter is bound to the passed keyword argument when one
was passed, else to its declared default. -/
def boundArgs (h : Handler) (kwargs : List (String × PyVal)) : List (String × PyVal) :=
  (contractParams h).map (fun p =>
    (p.name, match List.lookup p.name kwargs with
             | some v => v
             | none => p.dflt.getD PyVal.pyNone))

/-- The keyword-argument dict of `_handle_request` just before casting:
the path captures (strings, as tornado passes them), updated with the
extracted query arguments (handler.py line 103). -/
def assembleKwargs (pathKwargs qargs : List (String × String)) : List (String × PyVal) :=
  dictUpdate (pathKwargs.map (fun kv => (kv.1, PyVal.str kv.2)))
             (qargs.map (fun kv => (kv.1, PyVal.str kv.2)))

/-- The log line of handler.py line 109, emitted when a registered
handler is not a coroutine. -/
def notCoroutineWarning (hname : String) : String :=
  hname ++ " is not a coroutine!"

/-- What one run of `MainHandler._handle_request` produced before
response writing: the handler result or the raised error, whether the
user handler was invoked, and the log warnings emitted. -/
structure RunResult where
  outcome : Except CalmError PyVal
  invoked : Bool
  warnings : List String

/-- `MainHandler._handle_request` (handler.py lines 97-112): a missing
method handler raises `MethodNotAllowedError`; otherwise read the query
arguments into the path kwargs, coerce, parse the body, and invoke the
handler — awaiting it when it is a coroutine, calling it directly (and
logging a warning) when it is not. Each raise short-circuits with the
user handler never invoked. -/
def handleRequest (jsonLoads : String → Option PyVal) (mhd : Option HandlerDef)
    (pathKwargs : List (String × String)) (req : Request) : RunResult :=
  match mhd with
  | none => ⟨.error .MethodNotAllowedError, false, []⟩
  | some hd =>
    match getQueryArgs req hd.queryArgs with
    | .error e => ⟨.error e, false, []⟩
    | .ok qargs =>
      match castArgs hd.handler (assembleKwargs pathKwargs qargs) with
      | .error e => ⟨.error e, false, []⟩
      | .ok kwargs' =>
        match parseBody jsonLoads req with
        | .error e => ⟨.error e, false, []⟩
        | .ok body =>
          ⟨.ok (hd.handler.run body (boundArgs hd.handler kwargs')),
           true,
           if hd.handler.isCoroutine then [] else [notCoroutineWarning hd.handler.name]⟩

/-! ## Response and error serialization (handler.py lines 130-175) -/

/-- The value actually handed to `json.dumps`: the result of `__json__`
when the response exposes one, else the response itself (handler.py
lines 132-135). -/
def jsonResult : PyVal → PyVal
  | .obj _ (some j) => j
  | v => v

/-- `MainHandler._write_response` (handler.py lines 130-146): a return
value exposing `__json__` is converted through it, any other value is
serialized directly; a `json.dumps` failure raises `ServerError` whose
message names the value's real type. -/
def writeResponse (resp : PyVal) : Except CalmError String :=
  match (jsonResult resp).dumps with
  | some s => .ok s
  | none => .error (.ServerError ("Could not serialize " ++ resp.pyTypeName ++ " to JSON"))

/-- The fixed user-facing text of `MainHandler._write_server_error`
(handler.py lines 170-171). -/
def genericServerMessage : String :=
  "Oops our bad. We are working to fix this!"

/-- `json.dumps` of the one-key error envelope
(handler.py lines 160-165 and 169-175). -/
def jsonEnvelope (key msg : String) : String :=
  "\x7b\"" ++ key ++ "\": \"" ++ msg ++ "\"\x7d"

/-- `MainHandler.write_error` with `_write_client_error` and
`_write_server_error` (handler.py lines 148-175): a `ClientError`
instance is sent with its own status and message; everything else
becomes status 500 with the fixed generic message under the configured
error key. -/
def writeError (errorKey : String) (e : CalmError) : Nat × String :=
  if e.isClientError then
    (e.code, jsonEnvelope errorKey e.clientMessage)
  else
    (500, jsonEnvelope errorKey genericServerMessage)

/-- A finished HTTP exchange: status, body, whether the user handler
ran, and the warnings logged. -/
structure DispatchOutcome where
  status : Nat
  body : String
  invoked : Bool
  warnings : List String

/-- The dispatch boundary: a successful `_handle_request` writes the
serialized result with status 200; a raise — from the pipeline or from
response serialization — reaches `write_error` (handler.py lines
148-156) and becomes the error envelope. -/
def finalize (errorKey : String) (rr : RunResult) : DispatchOutcome :=
  match rr.outcome with
  | .ok v =>
    match writeResponse v with
    | .ok body => ⟨200, body, rr.invoked, rr.warnings⟩
    | .error e => ⟨(writeError errorKey e).1, (writeError errorKey e).2, rr.invoked, rr.warnings⟩
  | .error e => ⟨(writeError errorKey e).1, (writeError errorKey e).2, rr.invoked, rr.warnings⟩

/-- Tornado's routing joined with calm's handlers: the application
tries each registered pattern in order — the pattern matcher (the
regex engine) is the external collaborator `matcher`, returning the
named captures on a match. -/
def findMatch (matcher : String → String → Option (List (String × String)))
    : List (String × List (String × HandlerDef)) → String
    → Option (List (String × HandlerDef) × List (String × String))
  | [], _ => none
  | (pat, methods) :: rest, path =>
    match matcher pat path with
    | some caps => some (methods, caps)
    | none => findMatch matcher rest path

/-- The full per-request pipeline of the compiled application
(core.py `make_app` and handler.py): a path matching no registered
pattern is served by `DefaultHandler._handle_request` (handler.py lines
186-187), which raises `NotFoundError`; a matched pattern dispatches to
`MainHandler` with the method's `HandlerDef` — `None` when the method
was never registered for that pattern (core.py line 156, handler.py
lines 47-50 and 99-100). -/
def appDispatch (errorKey : String) (jsonLoads : String → Option PyVal)
    (matcher : String → String → Option (List (String × String)))
    (routes : List (String × List (String × HandlerDef)))
    (httpMethod path : String) (req : Request) : DispatchOutcome :=
  match findMatch matcher routes path with
  | none => finalize errorKey ⟨.error .NotFoundError, false, []⟩
  | some (methods, caps) =>
    finalize errorKey (handleRequest jsonLoads (List.lookup (lowerStr httpMethod) methods) caps req)

/-! ## Route registration (core.py, CalmApp._add_route) -/

/-- `CalmApp._add_route` (core.py lines 134-156): normalize the uri,
build the `HandlerDef` (which can raise `DefinitionError`), record the
consumes/produces tags, and assign
`self._route_map[uri][http_method.lower()] = handler_def` — a plain
dict assignment into the defaultdict-of-dict route map. The
`getattr(function, ...)` fallbacks concern decorator-set attributes,
absent on the plain handlers modelled here. -/
def addRoute (routeMap : List (String × List (String × HandlerDef)))
    (httpMethod : String) (h : Handler) (frags : List String)
    (consumes produces : Option String) : Except RegError (List (String × List (String × HandlerDef))) :=
  let uri := normalizeUri frags
  match HandlerDef.make uri h with
  | .error e => .error e
  | .ok hd =>
    let hd' : HandlerDef := { hd with consumes := consumes, produces := produces }
    let methods := (List.lookup uri routeMap).getD []
    .ok (dictSet routeMap uri (dictSet methods (lowerStr httpMethod) hd'))

/-! ## Process-wide configuration (core.py lines 39-60) -/

/-- The class-level default configuration dict of `CalmApp`
(core.py lines 40-44), holding the argument parser (kept as an opaque
tag), the plain-result key and the error key. -/
def CalmApp.defaultConfig : List (String × String) :=
  [("argument_parser", "ArgumentParser"),
   ("plain_result_key", "result"),
   ("error_key", "error")]

/-- The shared state behind every `CalmApp`: `config` is an attribute
of the class object itself (core.py line 40), so there is exactly one
dict per process. -/
structure PyWorld where
  classConfig : List (String × String)

/-- The per-instance state `CalmApp.__init__` creates (core.py lines
46-52): `_app`, `_route_map`, `_custom_handlers`, `_ws_map` — and no
instance-level `config` attribute, so attribute lookup for
`self.config` always reaches the class dict. -/
structure CalmAppInst where
  routeMap : List (String × List (String × HandlerDef))

/-- `CalmApp()` — a fresh instance with an empty route map and nothing
shadowing the class-level `config`. -/
def CalmApp.newApp : CalmAppInst :=
  ⟨[]⟩

/-- Reading `self.config` on any instance: the attribute is found on
the class, so every instance observes the same shared dict. -/
def CalmApp.readConfig (w : PyWorld) (_self : CalmAppInst) : List (String × String) :=
  w.classConfig

/-- `CalmApp.configure` (core.py lines 54-60):
`self.config.update(kwargs)` — `self.config` resolves to the class
attribute, and `dict.update` mutates that shared dict in place. -/
def CalmApp.configure (w : PyWorld) (_self : CalmAppInst)
    (kwargs : List (String × String)) : PyWorld :=
  ⟨dictUpdate w.classConfig kwargs⟩

/-- The failure condition of contract extraction, as the claim states
it: some capture name of the compiled pattern has no same-named
contract parameter, or its same-named parameter carries a default
value. -/
def pathArgViolation (pathArgs : List String) (params : List Param) : Prop :=
  ∃ a ∈ pathArgs,
    (params.find? (fun p => p.name == a) = none
      ∨ ∃ p, params.find? (fun p => p.name == a) = some p ∧ p.dflt.isSome = true)

/-- Whether `pat` occurs as a contiguous substring of `hay`: used to
state that a response body never mentions a type name. -/
def containsSeq (pat : List Char) : List Char → Bool
  | [] => pat.isEmpty
  | c :: rest => pat.isPrefixOf (c :: rest) || containsSeq pat rest

/-! ## Concrete sample material used by witnesses and counterexamples -/

/-- A stand-in for the external JSON decoder in concrete runs: decodes
the two literals the examples use and rejects everything else. -/
def sampleJsonLoads : String → Option PyVal :=
  fun s => if s = "null" then some PyVal.pyNone
           else if s = "42" then some (PyVal.int 42)
           else none

/-- The shared trivial handler body of the samples. -/
def convRun : BodyState → List (String × PyVal) → PyVal :=
  fun _ _ => PyVal.pyNone

/-- A no-argument handler declared as a coroutine. -/
def plainHandler : Handler :=
  ⟨"h_plain", [⟨"self", none, none⟩], true, convRun⟩

/-- A no-argument handler declared as a plain function; identical to
`asyncConvHandler` in everything but the calling convention. -/
def syncConvHandler : Handler :=
  ⟨"h_conv", [⟨"self", none, none⟩], false, convRun⟩

/-- A no-argument coroutine handler; identical to `syncConvHandler` in
everything but the calling convention. -/
def asyncConvHandler : Handler :=
  ⟨"h_conv", [⟨"self", none, none⟩], true, convRun⟩

/-- A handler with one required query argument `q` and one optional
query argument `opt` defaulting to the string `d`. -/
def queryHandler : Handler :=
  ⟨"h_query",
   [⟨"self", none, none⟩, ⟨"q", none, none⟩, ⟨"opt", some (PyVal.str "d"), none⟩],
   true, convRun⟩

/-- A handler with one integer-annotated query argument `n` and one
unannotated query argument `raw`. -/
def typedHandler : Handler :=
  ⟨"h_typed",
   [⟨"self", none, none⟩, ⟨"n", none, some TypeTag.tInt⟩, ⟨"raw", none, none⟩],
   true, convRun⟩

/-- The spec section 8 scenario handler `(req, id, active: bool = True)`. -/
def usersHandler : Handler :=
  ⟨"get_user",
   [⟨"self", none, none⟩, ⟨"id", none, none⟩,
    ⟨"active", some (PyVal.bool true), some TypeTag.tBool⟩],
   true, convRun⟩

/-- A handler whose path parameter `id` wrongly carries a default. -/
def badPathHandler : Handler :=
  ⟨"h_bad", [⟨"self", none, none⟩, ⟨"id", some (PyVal.int 0), none⟩], true, convRun⟩

/-- A registered route table with one pattern serving only GET. -/
def sampleHd : HandlerDef :=
  ⟨"/x/?", plainHandler, [], [], none, none⟩

def sampleRoutes : List (String × List (String × HandlerDef)) :=
  [("/x/?", [("get", sampleHd)])]

/-- A sample pattern matcher standing in for the regex engine: the one
registered pattern matches exactly the path string with or without the
trailing slash, with no captures. -/
def sampleMatcher : String → String → Option (List (String × String)) :=
  fun pat p => if pat = "/x/?" && (p = "/x" || p = "/x/") then some [] else none

def emptyReq : Request :=
  ⟨[], ""⟩

/-- The route descriptor registration derives for `queryHandler` on the
capture-free pattern `/q/?`. -/
def queryHd : HandlerDef :=
  ⟨"/q/?", queryHandler, [], [("q", true), ("opt", false)], none, none⟩

/-- A request supplying the required query argument `q` and omitting
the optional `opt`. -/
def optReq : Request :=
  ⟨[("q", "1")], ""⟩

/-- The route descriptor registration derives for `typedHandler` on the
capture-free pattern `/t/?`. -/
def typedHd : HandlerDef :=
  ⟨"/t/?", typedHandler, [], [("n", true), ("raw", true)], none, none⟩

/-- A request whose integer-annotated argument `n` carries an
unparseable raw value. -/
def badIntReq : Request :=
  ⟨[("n", "abc"), ("raw", "z")], ""⟩

/-- A request carrying a body the sample decoder rejects. -/
def malformedReq : Request :=
  ⟨[], "nope"⟩

/-- Two handlers for the same route whose contracts differ: the first
expects query argument `a`, the second optional query argument `b`. -/
def firstHandler : Handler :=
  ⟨"h_first", [⟨"self", none, none⟩, ⟨"a", none, none⟩], true, convRun⟩

def secondHandler : Handler :=
  ⟨"h_second", [⟨"self", none, none⟩, ⟨"b", some (PyVal.int 1), none⟩], true, convRun⟩

/-- Registering `firstHandler` and then `secondHandler` for the same
(fragments, method) pair, exactly as two `_add_route` calls do. -/
def twiceRegistered : Except RegError (List (String × List (String × HandlerDef))) :=
  match addRoute [] "GET" firstHandler ["x"] none none with
  | .error e => .error e
  | .ok rm1 => addRoute rm1 "GET" secondHandler ["x"] none none

/-! ## Lemmas about the path template compiler -/

theorem findall_colon (rest : List Char) :
    findall (':' :: rest)
      = rest.takeWhile nameChar :: findall (rest.dropWhile nameChar) := by
  simp [findall]

theorem findall_other {c : Char} (rest : List Char) (hc : ¬ c = ':') :
    findall (c :: rest) = findall rest := by
  simp [findall, hc]

theorem markedRewrite_nil (P : List Char → Bool) : markedRewrite P [] = [] := by
  simp [markedRewrite]

theorem markedRewrite_colon (P : List Char → Bool) (rest : List Char) :
    markedRewrite P (':' :: rest)
      = (if P (rest.takeWhile nameChar) then captureOf (rest.takeWhile nameChar)
         else ':' :: rest.takeWhile nameChar) ++ markedRewrite P (rest.dropWhile nameChar) := by
  simp [markedRewrite]

theorem markedRewrite_other (P : List Char → Bool) {c : Char} (rest : List Char)
    (hc : ¬ c = ':') : markedRewrite P (c :: rest) = c :: markedRewrite P rest := by
  simp [markedRewrite, hc]

theorem colon_not_nameChar : nameChar ':' = false := by decide

theorem colon_not_mem_run {run : List Char} (h : ∀ c ∈ run, nameChar c) : ':' ∉ run := by
  intro hmem
  simpa [colon_not_nameChar] using h ':' hmem

theorem colon_not_mem_captureOf {n : List Char} (hn : ∀ c ∈ n, nameChar c) :
    ':' ∉ captureOf n := by
  intro hmem
  simp only [captureOf] at hmem
  rcases List.mem_append.mp hmem with h | h
  · rcases List.mem_append.mp h with h' | h'
    · simp at h'
    · exact colon_not_mem_run hn h'
  · simp at h

theorem replaceAll_nil (pat rep : List Char) : replaceAll pat rep [] = [] := by
  simp [replaceAll]

theorem replaceAll_append_colon_free (n rep a b : List Char) (ha : ':' ∉ a) :
    replaceAll (':' :: n) rep (a ++ b) = a ++ replaceAll (':' :: n) rep b := by
  induction a with
  | nil => simp
  | cons c a ih =>
    have hc : ¬ c = ':' := fun h => ha (h ▸ List.mem_cons_self c a)
    have hpre : ¬ ((':' :: n).isPrefixOf (c :: (a ++ b)) = true) := by
      rw [List.isPrefixOf_iff_prefix, List.cons_prefix_cons]
      rintro ⟨h, -⟩
      exact hc h.symm
    rw [List.cons_append]
    rw [show replaceAll (':' :: n) rep (c :: (a ++ b))
        = c :: replaceAll (':' :: n) rep (a ++ b) by simp [replaceAll, hpre]]
    rw [ih (fun h => ha (List.mem_cons_of_mem c h))]
    simp

theorem run_all_nameChar (rest : List Char) : ∀ c ∈ rest.takeWhile nameChar, nameChar c :=
  fun _ h => List.mem_takeWhile_imp h

theorem prefix_resolves_to_run {n run tail : List Char}
    (hnp : n <+: run ++ tail)
    (h1 : List.isPrefixOf n run → run = n)
    (h2 : List.isPrefixOf run n → run = n) : run = n := by
  rcases le_or_lt n.length run.length with h | h
  · apply h1
    rw [List.isPrefixOf_iff_prefix]
    have heq := List.prefix_iff_eq_take.mp hnp
    rw [List.take_append_eq_append_take, Nat.sub_eq_zero_of_le h, List.take_zero,
      List.append_nil] at heq
    rw [heq]
    exact List.take_prefix _ _
  · apply h2
    rw [List.isPrefixOf_iff_prefix]
    obtain ⟨t, ht⟩ := hnp
    have heq : run = List.take run.length (n ++ t) := by
      rw [ht, List.take_left]
    rw [List.take_append_eq_append_take, Nat.sub_eq_zero_of_le (Nat.le_of_lt h),
      List.take_zero, List.append_nil] at heq
    rw [heq]
    exact List.take_prefix _ _

theorem replaceAll_markedRewrite (n : List Char) (P : List Char → Bool) (u : List Char)
    (hn : ∀ r ∈ findall u, (List.isPrefixOf n r → r = n) ∧ (List.isPrefixOf r n → r = n)) :
    replaceAll (':' :: n) (captureOf n) (markedRewrite P u)
      = markedRewrite (fun r => P r || r == n) u := by
  induction u using specRewrite.induct with
  | case1 => simp [markedRewrite_nil, replaceAll_nil]
  | case2 rest ih =>
    have hrun := run_all_nameChar rest
    have hmem : List.takeWhile nameChar rest ∈ findall (':' :: rest) := by
      rw [findall_colon]; exact List.mem_cons_self _ _
    have hn' : ∀ r ∈ findall (List.dropWhile nameChar rest),
        (List.isPrefixOf n r = true → r = n) ∧ (List.isPrefixOf r n = true → r = n) := by
      intro r hr
      exact hn r (by rw [findall_colon]; exact List.mem_cons_of_mem _ hr)
    rw [markedRewrite_colon, markedRewrite_colon]
    by_cases hP : P (List.takeWhile nameChar rest) = true
    · rw [if_pos hP, if_pos (by simp [hP])]
      rw [replaceAll_append_colon_free _ _ _ _ (colon_not_mem_captureOf hrun)]
      rw [ih hn']
    · rw [if_neg hP]
      by_cases hnp : n <+: (List.takeWhile nameChar rest
          ++ markedRewrite P (List.dropWhile nameChar rest))
      · have hrn : List.takeWhile nameChar rest = n :=
          prefix_resolves_to_run hnp (hn _ hmem).1 (hn _ hmem).2
        have hcond : (':' :: n) ≠ [] ∧ ((':' :: n).isPrefixOf
            (':' :: (List.takeWhile nameChar rest
              ++ markedRewrite P (List.dropWhile nameChar rest))) = true) := by
          refine ⟨by simp, ?_⟩
          rw [List.isPrefixOf_iff_prefix, List.cons_prefix_cons]
          exact ⟨rfl, hnp⟩
        rw [List.cons_append]
        rw [show replaceAll (':' :: n) (captureOf n)
            (':' :: (List.takeWhile nameChar rest
              ++ markedRewrite P (List.dropWhile nameChar rest)))
            = captureOf n ++ replaceAll (':' :: n) (captureOf n)
              ((List.takeWhile nameChar rest
                ++ markedRewrite P (List.dropWhile nameChar rest)).drop n.length)
          by simp [replaceAll, hcond]]
        rw [hrn, List.drop_left, ih hn']
        rw [if_pos (by simp [hrn])]
      · have hcond : ¬ ((':' :: n).isPrefixOf
            (':' :: (List.takeWhile nameChar rest
              ++ markedRewrite P (List.dropWhile nameChar rest))) = true) := by
          rw [List.isPrefixOf_iff_prefix, List.cons_prefix_cons]
          rintro ⟨-, h⟩
          exact hnp h
        have hrn : ¬ (List.takeWhile nameChar rest = n) := by
          intro h
          exact hnp (h ▸ List.prefix_append _ _)
        rw [List.cons_append]
        rw [show replaceAll (':' :: n) (captureOf n)
            (':' :: (List.takeWhile nameChar rest
              ++ markedRewrite P (List.dropWhile nameChar rest)))
            = ':' :: replaceAll (':' :: n) (captureOf n)
              (List.takeWhile nameChar rest
                ++ markedRewrite P (List.dropWhile nameChar rest))
          by simp [replaceAll, hcond]]
        rw [replaceAll_append_colon_free _ _ _ _ (colon_not_mem_run hrun)]
        rw [ih hn']
        rw [if_neg (by simp [hP, hrn])]
        simp
  | case3 c rest hc ih =>
    have hn' : ∀ r ∈ findall rest,
        (List.isPrefixOf n r = true → r = n) ∧ (List.isPrefixOf r n = true → r = n) := by
      rw [findall_other rest hc] at hn; exact hn
    rw [markedRewrite_other P rest hc, markedRewrite_other _ rest hc]
    have hpre : ¬ ((':' :: n).isPrefixOf (c :: markedRewrite P rest) = true) := by
      rw [List.isPrefixOf_iff_prefix, List.cons_prefix_cons]
      rintro ⟨h, -⟩
      exact hc h.symm
    rw [show replaceAll (':' :: n) (captureOf n) (c :: markedRewrite P rest)
        = c :: replaceAll (':' :: n) (captureOf n) (markedRewrite P rest)
      by simp [replaceAll, hpre]]
    rw [ih hn']

theorem markedRewrite_congr (P Q : List Char → Bool) (u : List Char)
    (h : ∀ r ∈ findall u, P r = Q r) : markedRewrite P u = markedRewrite Q u := by
  induction u using specRewrite.induct with
  | case1 => simp [markedRewrite_nil]
  | case2 rest ih =>
    have hrun : P (List.takeWhile nameChar rest) = Q (List.takeWhile nameChar rest) :=
      h _ (by rw [findall_colon]; exact List.mem_cons_self _ _)
    rw [markedRewrite_colon, markedRewrite_colon, hrun,
      ih (fun r hr => h r (by rw [findall_colon]; exact List.mem_cons_of_mem _ hr))]
  | case3 c rest hc ih =>
    rw [markedRewrite_other P rest hc, markedRewrite_other Q rest hc,
      ih (by rw [findall_other rest hc] at h; exact h)]

theorem markedRewrite_false (u : List Char) : markedRewrite (fun _ => false) u = u := by
  induction u using specRewrite.induct with
  | case1 => simp [markedRewrite_nil]
  | case2 rest ih =>
    rw [markedRewrite_colon, if_neg (by simp), ih]
    simp [List.takeWhile_append_dropWhile]
  | case3 c rest hc ih =>
    rw [markedRewrite_other _ rest hc, ih]

theorem markedRewrite_true (u : List Char) : markedRewrite (fun _ => true) u = specRewrite u := by
  induction u using specRewrite.induct with
  | case1 => simp [markedRewrite_nil, specRewrite]
  | case2 rest ih =>
    rw [markedRewrite_colon, if_pos rfl, ih]
    simp [specRewrite]
  | case3 c rest hc ih =>
    rw [markedRewrite_other _ rest hc, ih]
    simp [specRewrite, hc]

theorem foldl_replaceAll_markedRewrite (u : List Char) (ns : List (List Char))
    (P : List Char → Bool)
    (hns : ∀ n ∈ ns, ∀ r ∈ findall u,
      (List.isPrefixOf n r = true → r = n) ∧ (List.isPrefixOf r n = true → r = n)) :
    ns.foldl (fun s m => replaceAll (':' :: m) (captureOf m) s) (markedRewrite P u)
      = markedRewrite (fun r => P r || ns.any (fun m => r == m)) u := by
  induction ns generalizing P with
  | nil =>
    simp only [List.foldl_nil]
    exact markedRewrite_congr _ _ u (fun r _ => by simp)
  | cons m ms ih =>
    rw [List.foldl_cons,
      replaceAll_markedRewrite m P u (hns m (List.mem_cons_self _ _)),
      ih _ (fun n hn => hns n (List.mem_cons_of_mem _ hn))]
    exact markedRewrite_congr _ _ u (fun r _ => by simp [Bool.or_assoc])

/-- Under the no-proper-prefix side condition, the source's sequential
replacement loop computes exactly the spec's one-pass rewriting. -/
theorem normalizeUri_eq_spec_of_prefixFree (frags : List String)
    (h : prefixFree (findall (preUri frags))) :
    normalizeUri frags = normalizeUriSpec frags := by
  simp only [normalizeUri, normalizeUriSpec]
  congr 1
  have h0 := foldl_replaceAll_markedRewrite (preUri frags) (findall (preUri frags))
    (fun _ => false) (fun n hn r hr =>
      ⟨fun hp => ((h n hn r hr).1 hp).symm, fun hp => ((h n hn r hr).2 hp).symm⟩)
  rw [markedRewrite_false] at h0
  rw [h0, markedRewrite_congr _ (fun _ => true) (preUri frags)
    (fun r hr => by
      have : ((findall (preUri frags)).any fun m => r == m) = true :=
        List.any_eq_true.mpr ⟨r, hr, by simp⟩
      simp only [this, Bool.or_true]),
    markedRewrite_true]

/-! ## Lemmas about contract extraction -/

theorem extractPathArgsCheck_error_iff (hname : String) (params : List Param) :
    ∀ pathArgs : List String,
      (∃ e, extractPathArgsCheck hname params pathArgs = .error e)
        ↔ pathArgViolation pathArgs params
  | [] => by simp [extractPathArgsCheck, pathArgViolation]
  | a :: rest => by
    unfold pathArgViolation
    rcases hfind : params.find? (fun p => p.name == a) with _ | p
    · simp only [extractPathArgsCheck, hfind]
      constructor
      · intro _
        exact ⟨a, List.mem_cons_self _ _, Or.inl hfind⟩
      · intro _
        exact ⟨_, rfl⟩
    · rcases hdflt : p.dflt.isSome with _ | _
      · have ih := extractPathArgsCheck_error_iff hname params rest
        unfold pathArgViolation at ih
        simp only [extractPathArgsCheck, hfind, hdflt, Bool.false_eq_true, if_false]
        rw [ih]
        constructor
        · rintro ⟨b, hb, hvb⟩
          exact ⟨b, List.mem_cons_of_mem _ hb, hvb⟩
        · rintro ⟨b, hb, hvb⟩
          rcases List.mem_cons.mp hb with rfl | hb'
          · rcases hvb with hnone | ⟨q, hq, hqd⟩
            · rw [hfind] at hnone; cases hnone
            · rw [hfind] at hq
              cases hq
              rw [hdflt] at hqd
              cases hqd
          · exact ⟨b, hb', hvb⟩
      · simp only [extractPathArgsCheck, hfind, hdflt, if_true]
        constructor
        · intro _
          exact ⟨a, List.mem_cons_self _ _, Or.inr ⟨p, hfind, hdflt⟩⟩
        · intro _
          exact ⟨_, rfl⟩

theorem extractPathArgsCheck_error_def (hname : String) (params : List Param) :
    ∀ (pathArgs : List String) (e : CalmError),
      extractPathArgsCheck hname params pathArgs = .error e →
      ∃ msg, e = .DefinitionError msg := by
  intro pathArgs
  induction pathArgs with
  | nil => intro e he; simp [extractPathArgsCheck] at he
  | cons a rest ih =>
    intro e he
    rcases hfind : params.find? (fun p => p.name == a) with _ | p
    · simp only [extractPathArgsCheck, hfind] at he
      exact ⟨_, (Except.error.inj he).symm⟩
    · simp only [extractPathArgsCheck, hfind] at he
      by_cases hd : p.dflt.isSome = true
      · rw [if_pos hd] at he
        exact ⟨_, (Except.error.inj he).symm⟩
      · rw [if_neg hd] at he
        exact ih e he

theorem HandlerDef.make_reError (uri : String) (h : Handler) {msg : String}
    (herr : reGroupIndex [] uri.toList = .error msg) :
    HandlerDef.make uri h = .error (.reError msg) := by
  have herr' : reGroupIndex [] uri.data = Except.error msg := herr
  simp [HandlerDef.make, herr']

theorem HandlerDef.make_defError_iff (uri : String) (h : Handler)
    {names : List (List Char)}
    (hok : reGroupIndex [] uri.toList = .ok names) :
    (∃ msg, HandlerDef.make uri h = .error (.calm (.DefinitionError msg)))
      ↔ pathArgViolation (names.map String.mk) (contractParams h) := by
  have hok' : reGroupIndex [] uri.data = Except.ok names := hok
  constructor
  · rintro ⟨msg, hmk⟩
    apply (extractPathArgsCheck_error_iff h.name (contractParams h) _).mp
    rcases hex : extractPathArgsCheck h.name (contractParams h)
        (names.map String.mk) with e | u
    · exact ⟨e, rfl⟩
    · exfalso
      simp [HandlerDef.make, hok', hex] at hmk
  · intro hviol
    obtain ⟨e, he⟩ :=
      (extractPathArgsCheck_error_iff h.name (contractParams h) _).mpr hviol
    obtain ⟨msg, rfl⟩ := extractPathArgsCheck_error_def _ _ _ _ he
    exact ⟨msg, by simp [HandlerDef.make, hok', he]⟩

theorem HandlerDef.make_ok_of_no_violation (uri : String) (h : Handler)
    {names : List (List Char)}
    (hok : reGroupIndex [] uri.toList = .ok names)
    (hviol : ¬ pathArgViolation (names.map String.mk) (contractParams h)) :
    HandlerDef.make uri h
      = .ok ⟨uri, h, names.map String.mk,
          extractQueryArgs (names.map String.mk) (contractParams h),
          none, none⟩ := by
  have hok' : reGroupIndex [] uri.data = Except.ok names := hok
  rcases hex : extractPathArgsCheck h.name (contractParams h)
      (names.map String.mk) with e | u
  · exact absurd ((extractPathArgsCheck_error_iff h.name (contractParams h) _).mp
      ⟨e, hex⟩) hviol
  · cases u
    simp [HandlerDef.make, hok', hex]

/-! ## Lemmas about association lists and the dispatch pipeline -/

theorem lookup_eq_none_of_not_mem {α : Type} {q : String} {l : List (String × α)}
    (h : ∀ v, (q, v) ∉ l) : List.lookup q l = none := by
  induction l with
  | nil => rfl
  | cons kv rest ih =>
    rcases kv with ⟨k, v⟩
    have hqk : ¬ q = k := by
      intro hq
      exact h v (hq ▸ List.mem_cons_self _ _)
    rw [List.lookup_cons]
    simp only [beq_eq_false_iff_ne.mpr hqk]
    exact ih (fun v' hv' => h v' (List.mem_cons_of_mem _ hv'))

theorem mem_map_keys {α β : Type} {q : String} {w : β} {l : List (String × α)}
    {f : α → β} (h : (q, w) ∈ l.map (fun kv => (kv.1, f kv.2))) :
    ∃ v, (q, v) ∈ l := by
  obtain ⟨⟨k, v⟩, hkv, heq⟩ := List.mem_map.mp h
  cases heq
  exact ⟨v, hkv⟩

theorem mem_dictSet {α : Type} {q : String} {w : α} {d : List (String × α)}
    {k : String} {v : α} (h : (q, w) ∈ dictSet d k v) :
    q = k ∨ ∃ v', (q, v') ∈ d := by
  unfold dictSet at h
  by_cases hc : d.any (fun kv => kv.1 == k) = true
  · rw [if_pos hc] at h
    obtain ⟨⟨k', v'⟩, hkv, heq⟩ := List.mem_map.mp h
    by_cases hk : k' == k
    · rw [if_pos hk] at heq
      cases heq
      exact Or.inl rfl
    · rw [if_neg hk] at heq
      cases heq
      exact Or.inr ⟨_, hkv⟩
  · rw [if_neg hc] at h
    rcases List.mem_append.mp h with h' | h'
    · exact Or.inr ⟨w, h'⟩
    · simp at h'
      exact Or.inl h'.1

theorem mem_dictUpdate {α : Type} {q : String} {w : α} :
    ∀ {upd d : List (String × α)}, (q, w) ∈ dictUpdate d upd →
      (∃ v, (q, v) ∈ d) ∨ (∃ v, (q, v) ∈ upd) := by
  intro upd
  induction upd with
  | nil => intro d h; exact Or.inl ⟨w, h⟩
  | cons kv rest ih =>
    intro d h
    rcases kv with ⟨k, v⟩
    rw [dictUpdate, List.foldl_cons] at h
    rcases ih h with h' | h'
    · obtain ⟨v', hv'⟩ := h'
      rcases mem_dictSet hv' with rfl | ⟨v'', hv''⟩
      · exact Or.inr ⟨v, List.mem_cons_self _ _⟩
      · exact Or.inl ⟨v'', hv''⟩
    · obtain ⟨v', hv'⟩ := h'
      exact Or.inr ⟨v', List.mem_cons_of_mem _ hv'⟩

theorem getQueryArgs_mem (req : Request) :
    ∀ {qargs : List (String × Bool)} {out : List (String × String)},
      getQueryArgs req qargs = .ok out →
      ∀ {q : String} {v : String}, (q, v) ∈ out → req.getQueryArgument q = some v := by
  intro qargs
  induction qargs with
  | nil =>
    intro out hok q v hmem
    simp only [getQueryArgs] at hok
    cases hok
    simp at hmem
  | cons qr rest ih =>
    intro out hok q v hmem
    rcases qr with ⟨q', r'⟩
    simp only [getQueryArgs] at hok
    rcases hget : req.getQueryArgument q' with _ | w
    · rw [hget] at hok
      by_cases hr : r' = true
      · rw [if_pos hr] at hok
        cases hok
      · rw [if_neg hr] at hok
        exact ih hok hmem
    · rw [hget] at hok
      rcases hrest : getQueryArgs req rest with e | tail
      · rw [hrest] at hok
        cases hok
      · rw [hrest] at hok
        cases hok
        rcases List.mem_cons.mp hmem with heq | hmem'
        · cases heq
          exact hget
        · exact ih hrest hmem'

theorem getQueryArgs_error_of_missing_required (req : Request) :
    ∀ {qargs : List (String × Bool)} {q : String},
      (q, true) ∈ qargs → req.getQueryArgument q = none →
      ∃ msg, getQueryArgs req qargs = .error (.BadRequestError msg) := by
  intro qargs
  induction qargs with
  | nil => intro q hmem _; simp at hmem
  | cons qr rest ih =>
    intro q hmem hnone
    rcases qr with ⟨q', r'⟩
    rcases List.mem_cons.mp hmem with heq | hmem'
    · cases heq
      simp only [getQueryArgs, hnone, if_pos rfl]
      exact ⟨_, rfl⟩
    · simp only [getQueryArgs]
      rcases hget : req.getQueryArgument q' with _ | w
      · by_cases hr : r' = true
        · rw [if_pos hr]
          exact ⟨_, rfl⟩
        · rw [if_neg hr]
          exact ih hmem' hnone
      · obtain ⟨msg, hmsg⟩ := ih hmem' hnone
        rw [hmsg]
        exact ⟨msg, rfl⟩

theorem getQueryArgs_not_mem_of_missing (req : Request) :
    ∀ {qargs : List (String × Bool)} {out : List (String × String)} {q : String},
      getQueryArgs req qargs = .ok out → req.getQueryArgument q = none →
      ∀ v, (q, v) ∉ out := by
  intro qargs out q hok hnone v hmem
  rw [getQueryArgs_mem req hok hmem] at hnone
  cases hnone

theorem parse_error_isBadRequest :
    ∀ (t : TypeTag) (v : PyVal) (e : CalmError),
      ArgumentParser.parse t v = .error e → ∃ m, e = .BadRequestError m := by
  intro t
  induction t with
  | tStr =>
    intro v e hp
    cases v <;> simp only [ArgumentParser.parse] at hp <;>
      first
        | exact ⟨_, (Except.error.inj hp).symm⟩
        | cases hp
  | tInt =>
    intro v e hp
    cases v <;> simp only [ArgumentParser.parse] at hp <;>
      first
        | exact ⟨_, (Except.error.inj hp).symm⟩
        | cases hp
        | (rcases hi : parseIntStr _ with _ | n <;> rw [hi] at hp
           · exact ⟨_, (Except.error.inj hp).symm⟩
           · cases hp)
  | tBool =>
    intro v e hp
    cases v <;> simp only [ArgumentParser.parse] at hp <;>
      first
        | exact ⟨_, (Except.error.inj hp).symm⟩
        | cases hp
        | (split at hp
           · cases hp
           · split at hp
             · cases hp
             · exact ⟨_, (Except.error.inj hp).symm⟩)
  | tList t ih =>
    have hlist : ∀ (xs : List PyVal) (e : CalmError),
        ArgumentParser.parseList t xs = .error e → ∃ m, e = .BadRequestError m := by
      intro xs
      induction xs with
      | nil => intro e hm; simp [ArgumentParser.parseList] at hm
      | cons x xs ihx =>
        intro e hm
        simp only [ArgumentParser.parseList] at hm
        rcases hx : ArgumentParser.parse t x with ex | vx
        · rw [hx] at hm
          cases hm
          exact ih x _ hx
        · rw [hx] at hm
          rcases hxs : ArgumentParser.parseList t xs with exs | vxs
          · rw [hxs] at hm
            cases hm
            exact ihx _ hxs
          · rw [hxs] at hm
            cases hm
    intro v e hp
    cases v <;> simp only [ArgumentParser.parse] at hp
    case list xs =>
      rcases hxs : ArgumentParser.parseList t xs with exs | vxs <;> rw [hxs] at hp
      · cases hp
        exact hlist _ _ hxs
      · cases hp
    all_goals
      rcases hv : ArgumentParser.parse t _ with ev | vv <;> rw [hv] at hp
      · cases hp
        exact ih _ _ hv
      · cases hp

theorem castArgs_error_isBadRequest (h : Handler) :
    ∀ {args : List (String × PyVal)} {e : CalmError},
      castArgs h args = .error e → ∃ m, e = .BadRequestError m := by
  intro args
  induction args with
  | nil => intro e hc; simp [castArgs] at hc
  | cons kv rest ih =>
    intro e hc
    rcases kv with ⟨k, v⟩
    rcases hann : h.annotOf k with _ | t
    · simp only [castArgs, hann] at hc
      rcases hrest : castArgs h rest with erest | tail <;> rw [hrest] at hc
      · cases hc
        exact ih hrest
      · cases hc
    · simp only [castArgs, hann] at hc
      rcases hp : ArgumentParser.parse t v with ep | vp <;> rw [hp] at hc
      · cases hc
        exact parse_error_isBadRequest t v _ hp
      · rcases hrest : castArgs h rest with erest | tail <;> rw [hrest] at hc
        · cases hc
          exact ih hrest
        · cases hc

theorem castArgs_lookup_unannotated (h : Handler) {q : String} :
    ∀ {args out : List (String × PyVal)},
      castArgs h args = .ok out → h.annotOf q = none →
      List.lookup q out = List.lookup q args := by
  intro args
  induction args with
  | nil =>
    intro out hc _
    simp only [castArgs] at hc
    cases hc
    rfl
  | cons kv rest ih =>
    intro out hc hq
    rcases kv with ⟨k, v⟩
    rcases hann : h.annotOf k with _ | t
    · simp only [castArgs, hann] at hc
      rcases hrest : castArgs h rest with erest | tail <;> rw [hrest] at hc
      · cases hc
      · cases hc
        simp only [List.lookup]
        rcases hqk : q == k with _ | _
        · exact ih hrest hq
        · rfl
    · simp only [castArgs, hann] at hc
      rcases hp : ArgumentParser.parse t v with ep | vp <;> rw [hp] at hc
      · cases hc
      · rcases hrest : castArgs h rest with erest | tail <;> rw [hrest] at hc
        · cases hc
        · cases hc
          simp only [List.lookup]
          rcases hqk : q == k with _ | _
          · exact ih hrest hq
          · exfalso
            have hqk' : q = k := eq_of_beq hqk
            rw [hqk', hann] at hq
            cases hq

theorem castArgs_lookup_annotated (h : Handler) {q : String} {t : TypeTag} :
    ∀ {args out : List (String × PyVal)} {v : PyVal},
      castArgs h args = .ok out → h.annotOf q = some t →
      List.lookup q args = some v →
      ∃ v', ArgumentParser.parse t v = .ok v' ∧ List.lookup q out = some v' := by
  intro args
  induction args with
  | nil => intro out v hc _ hl; simp at hl
  | cons kv rest ih =>
    intro out v hc hq hl
    rcases kv with ⟨k, w⟩
    simp only [List.lookup] at hl
    rcases hqk : q == k with _ | _ <;> rw [hqk] at hl
    · rcases hann : h.annotOf k with _ | t'
      · simp only [castArgs, hann] at hc
        rcases hrest : castArgs h rest with erest | tail <;> rw [hrest] at hc
        · cases hc
        · cases hc
          obtain ⟨v', hv', hlk⟩ := ih hrest hq hl
          refine ⟨v', hv', ?_⟩
          simp only [List.lookup, hqk]
          exact hlk
      · simp only [castArgs, hann] at hc
        rcases hp : ArgumentParser.parse t' w with ep | vp <;> rw [hp] at hc
        · cases hc
        · rcases hrest : castArgs h rest with erest | tail <;> rw [hrest] at hc
          · cases hc
          · cases hc
            obtain ⟨v', hv', hlk⟩ := ih hrest hq hl
            refine ⟨v', hv', ?_⟩
            simp only [List.lookup, hqk]
            exact hlk
    · cases hl
      have hqk' : q = k := eq_of_beq hqk
      rw [← hqk'] at hc
      simp only [castArgs, ← hqk', hq] at hc
      rcases hp : ArgumentParser.parse t v with ep | vp <;> rw [hp] at hc
      · cases hc
      · rcases hrest : castArgs h rest with erest | tail <;> rw [hrest] at hc
        · cases hc
        · cases hc
          refine ⟨vp, rfl, ?_⟩
          simp [List.lookup]

theorem castArgs_lookup_none (h : Handler) {q : String} :
    ∀ {args out : List (String × PyVal)},
      castArgs h args = .ok out → List.lookup q args = none →
      List.lookup q out = none := by
  intro args
  induction args with
  | nil =>
    intro out hc _
    simp only [castArgs] at hc
    cases hc
    rfl
  | cons kv rest ih =>
    intro out hc hl
    rcases kv with ⟨k, v⟩
    simp only [List.lookup] at hl
    rcases hqk : q == k with _ | _ <;> rw [hqk] at hl
    · rcases hann : h.annotOf k with _ | t
      · simp only [castArgs, hann] at hc
        rcases hrest : castArgs h rest with erest | tail <;> rw [hrest] at hc
        · cases hc
        · cases hc
          simp only [List.lookup, hqk]
          exact ih hrest hl
      · simp only [castArgs, hann] at hc
        rcases hp : ArgumentParser.parse t v with ep | vp <;> rw [hp] at hc
        · cases hc
        · rcases hrest : castArgs h rest with erest | tail <;> rw [hrest] at hc
          · cases hc
          · cases hc
            simp only [List.lookup, hqk]
            exact ih hrest hl
    · cases hl

theorem lookup_map_params (params : List Param) (f : Param → PyVal) (q : String) :
    List.lookup q (params.map (fun p => (p.name, f p)))
      = (params.find? (fun p => p.name == q)).map f := by
  induction params with
  | nil => rfl
  | cons p ps ih =>
    by_cases hqp : q = p.name
    · simp only [List.map_cons, List.lookup, List.find?,
        beq_iff_eq.mpr hqp, beq_iff_eq.mpr hqp.symm]
      rfl
    · simp only [List.map_cons, List.lookup, List.find?,
        beq_eq_false_iff_ne.mpr hqp, beq_eq_false_iff_ne.mpr (Ne.symm hqp)]
      exact ih

theorem mem_extractQueryArgs (pathArgs : List String) (params : List Param)
    (q : String) (r : Bool) :
    (q, r) ∈ extractQueryArgs pathArgs params
      ↔ ∃ p ∈ params, p.name = q ∧ pathArgs.contains q = false ∧ r = p.dflt.isNone := by
  unfold extractQueryArgs
  rw [List.mem_filterMap]
  constructor
  · rintro ⟨p, hp, hif⟩
    rcases hcon : pathArgs.contains p.name with _ | _
    · rw [if_neg (by rw [hcon]; simp)] at hif
      cases hif
      exact ⟨p, hp, rfl, hcon, rfl⟩
    · rw [if_pos (by rw [hcon])] at hif
      cases hif
  · rintro ⟨p, hp, rfl, hcon, rfl⟩
    exact ⟨p, hp, by rw [if_neg (by rw [hcon]; simp)]⟩

theorem lookup_append_right {α : Type} {q : String} {d : List (String × α)}
    (h : d.any (fun kv => kv.1 == q) = false) (tl : List (String × α)) :
    List.lookup q (d ++ tl) = List.lookup q tl := by
  induction d with
  | nil => rfl
  | cons kv rest ih =>
    rcases kv with ⟨k, v⟩
    simp only [List.any_cons, Bool.or_eq_false_iff] at h
    rw [List.cons_append, List.lookup_cons]
    have hqk : (q == k) = false := by
      by_cases hq : q = k
      · subst hq
        rw [beq_self_eq_true] at h
        exact absurd h.1 (by simp)
      · exact beq_eq_false_iff_ne.mpr hq
    rw [hqk]
    exact ih h.2

theorem lookup_dictSet_self {α : Type} (d : List (String × α)) (k : String) (v : α) :
    List.lookup k (dictSet d k v) = some v := by
  unfold dictSet
  by_cases hc : d.any (fun kv => kv.1 == k) = true
  · rw [if_pos hc]
    induction d with
    | nil => simp at hc
    | cons kv rest ih =>
      rcases kv with ⟨k', v'⟩
      rw [List.map_cons]
      by_cases hk : k' = k
      · subst hk
        rw [if_pos (beq_self_eq_true k')]
        simp [List.lookup]
      · rw [if_neg (by simp [hk])]
        simp only [List.lookup, beq_eq_false_iff_ne.mpr (Ne.symm hk)]
        simp only [List.any_cons, beq_eq_false_iff_ne.mpr hk, Bool.false_or] at hc
        exact ih hc
  · rw [if_neg hc]
    rw [lookup_append_right (by
      rw [Bool.eq_false_iff]
      exact hc)]
    simp [List.lookup]

theorem HandlerDef.make_ok_inv {uri : String} {h : Handler} {hd : HandlerDef}
    (hmk : HandlerDef.make uri h = .ok hd) :
    hd.uri = uri ∧ hd.handler = h
      ∧ hd.queryArgs = extractQueryArgs hd.pathArgs (contractParams h)
      ∧ ∃ names, reGroupIndex [] uri.toList = .ok names
          ∧ hd.pathArgs = names.map String.mk := by
  rcases hgi : reGroupIndex [] uri.toList with msg | names
  · have hgi' : reGroupIndex [] uri.data = Except.error msg := hgi
    simp [HandlerDef.make, hgi'] at hmk
  · rcases hex : extractPathArgsCheck h.name (contractParams h)
        (names.map String.mk) with e | u
    · have hgi' : reGroupIndex [] uri.data = Except.ok names := hgi
      simp [HandlerDef.make, hgi', hex] at hmk
    · cases u
      simp only [HandlerDef.make, hgi, hex] at hmk
      cases hmk
      exact ⟨rfl, rfl, rfl, names, rfl, rfl⟩

theorem not_mem_of_lookup_eq_none {α : Type} {q : String} {l : List (String × α)}
    (h : List.lookup q l = none) : ∀ v, (q, v) ∉ l := by
  induction l with
  | nil => intro v hv; cases hv
  | cons kv rest ih =>
    rcases kv with ⟨k, w⟩
    rw [List.lookup_cons] at h
    intro v hv
    rcases List.mem_cons.mp hv with heq | hmem
    · cases heq
      rw [beq_self_eq_true] at h
      cases h
    · rcases hqk : q == k with _ | _
      · rw [hqk] at h
        exact ih h v hmem
      · rw [hqk] at h
        cases h

/-! ## Claim theorems -/

/-- C1: for every incoming request, when no registered pattern matches
the request path the application answers through
`DefaultHandler._handle_request` with `NotFoundError` (status 404), and
when a pattern matches but the request's method has no registered
handler for it, `MainHandler._handle_request` raises
`MethodNotAllowedError` (status 405); in both cases no user handler is
invoked (and nothing is logged). -/
theorem c1_resolve_404_405 (errorKey : String) (jsonLoads : String → Option PyVal)
    (matcher : String → String → Option (List (String × String)))
    (routes : List (String × List (String × HandlerDef)))
    (httpMethod path : String) (req : Request) :
    (findMatch matcher routes path = none →
      appDispatch errorKey jsonLoads matcher routes httpMethod path req
        = ⟨404, jsonEnvelope errorKey CalmError.NotFoundError.clientMessage, false, []⟩)
    ∧ (∀ methods caps, findMatch matcher routes path = some (methods, caps) →
        List.lookup (lowerStr httpMethod) methods = none →
        appDispatch errorKey jsonLoads matcher routes httpMethod path req
          = ⟨405, jsonEnvelope errorKey CalmError.MethodNotAllowedError.clientMessage,
              false, []⟩) := by
  constructor
  · intro hm
    simp [appDispatch, hm, finalize, writeError, CalmError.isClientError, CalmError.code]
  · intro methods caps hm hl
    simp [appDispatch, hm, hl, handleRequest, finalize, writeError,
      CalmError.isClientError, CalmError.code]

/-- Witness for C1: a GET to the unregistered path `/y` yields 404, and
a POST to the registered GET-only pattern yields 405, neither invoking
a handler. -/
theorem c1_resolve_404_405_witness :
    appDispatch "error" sampleJsonLoads sampleMatcher sampleRoutes "GET" "/y" emptyReq
      = ⟨404, jsonEnvelope "error" CalmError.NotFoundError.clientMessage, false, []⟩
    ∧ appDispatch "error" sampleJsonLoads sampleMatcher sampleRoutes "POST" "/x" emptyReq
      = ⟨405, jsonEnvelope "error" CalmError.MethodNotAllowedError.clientMessage,
          false, []⟩ := by
  constructor
  · exact (c1_resolve_404_405 "error" sampleJsonLoads sampleMatcher sampleRoutes
      "GET" "/y" emptyReq).1 (by simp [findMatch, sampleRoutes, sampleMatcher])
  · exact (c1_resolve_404_405 "error" sampleJsonLoads sampleMatcher sampleRoutes
      "POST" "/x" emptyReq).2 [("get", sampleHd)] []
      (by simp [findMatch, sampleRoutes, sampleMatcher]) (by rfl)

/-- C4 (counterexample): the claim collapses `re.compile`'s failure
path (core.py line 250). Registering the template `/:id/:id` with a
no-argument handler fails with `re.error` (group `id` registered
twice), not with `DefinitionError`, although a capture name has no
same-named parameter — refuting "fails with DefinitionError exactly
when". And for the template `:a/:ab` with a handler expecting `a`
(no default), no capture name of the compiled pattern violates the
contract — the C7 corruption makes both captures be named `a` — yet
real registration raises `re.error` instead of succeeding, refuting
"otherwise registration of the route succeeds". -/
theorem c4_counterexample :
    HandlerDef.make (normalizeUri [":id/:id"]) plainHandler
      = .error (.reError "redefinition of group name id")
    ∧ (¬ pathArgViolation ["a", "a"] (contractParams firstHandler))
    ∧ HandlerDef.make (normalizeUri [":a/:ab"]) firstHandler
      = .error (.reError "redefinition of group name a") := by
  refine ⟨?_, by simp [pathArgViolation, contractParams, firstHandler, List.find?], ?_⟩
  · have h1 : normalizeUri [":id/:id"]
        = "/(?P<id>[^\\/\\?]*)/(?P<id>[^\\/\\?]*)/?" := by
      simp [normalizeUri, preUri, joinFragments, stripSlashes, findall, nameChar,
        List.takeWhile, List.dropWhile, replaceAll, captureOf]
    rw [h1]
    have h2 : reGroupIndex []
        ("/(?P<id>[^\\/\\?]*)/(?P<id>[^\\/\\?]*)/?".toList)
        = .error ("redefinition of group name id") := by
      simp [reGroupIndex, validGroupName, List.takeWhile, List.dropWhile]
    exact HandlerDef.make_reError _ _ h2
  · have h1 : normalizeUri [":a/:ab"]
        = "/(?P<a>[^\\/\\?]*)/(?P<a>[^\\/\\?]*)b/?" := by
      simp [normalizeUri, preUri, joinFragments, stripSlashes, findall, nameChar,
        List.takeWhile, List.dropWhile, replaceAll, captureOf]
    rw [h1]
    have h2 : reGroupIndex []
        ("/(?P<a>[^\\/\\?]*)/(?P<a>[^\\/\\?]*)b/?".toList)
        = .error ("redefinition of group name a") := by
      simp [reGroupIndex, validGroupName, List.takeWhile, List.dropWhile]
    exact HandlerDef.make_reError _ _ h2

/-- C4 (amended): when `re.compile(self.uri)` succeeds — the pattern's
group names are valid identifiers, none registered twice — contract
extraction fails with `DefinitionError` exactly when some capture name
of the compiled pattern has no same-named parameter among the
handler's parameters past the excluded first one, or its same-named
parameter carries a default value, and in every other case
registration succeeds; when `re.compile` fails, registration fails
with the escaping `re.error` before any `DefinitionError` check. -/
theorem c4_definition_error (uri : String) (h : Handler) :
    (∀ names, reGroupIndex [] uri.toList = .ok names →
      (((∃ msg, HandlerDef.make uri h = .error (.calm (.DefinitionError msg)))
          ↔ pathArgViolation (names.map String.mk) (contractParams h))
        ∧ (¬ pathArgViolation (names.map String.mk) (contractParams h) →
            ∃ hd, HandlerDef.make uri h = .ok hd)))
    ∧ (∀ msg, reGroupIndex [] uri.toList = .error msg →
        HandlerDef.make uri h = .error (.reError msg)) :=
  ⟨fun _ hok =>
    ⟨HandlerDef.make_defError_iff uri h hok,
     fun hv => ⟨_, HandlerDef.make_ok_of_no_violation uri h hok hv⟩⟩,
   fun _ herr => HandlerDef.make_reError uri h herr⟩

/-- Witness for C4 (amended): on the compiled `users/:id` pattern,
`badPathHandler` (path parameter with a default) fails with
`DefinitionError`, `usersHandler` registers successfully, and the
duplicated-group pattern compiled from `/:id/:id` makes registration
fail with `re.error`. -/
theorem c4_definition_error_witness :
    (∃ msg, HandlerDef.make "/users/(?P<id>[^\\/\\?]*)/?" badPathHandler
        = .error (.calm (.DefinitionError msg)))
    ∧ (∃ hd, HandlerDef.make "/users/(?P<id>[^\\/\\?]*)/?" usersHandler = .ok hd)
    ∧ HandlerDef.make "/(?P<id>[^\\/\\?]*)/(?P<id>[^\\/\\?]*)/?" usersHandler
        = .error (.reError "redefinition of group name id") := by
  have hok : reGroupIndex [] ("/users/(?P<id>[^\\/\\?]*)/?".toList)
      = .ok [['i', 'd']] := by
    simp [reGroupIndex, validGroupName, List.takeWhile, List.dropWhile]
  have herr : reGroupIndex []
      ("/(?P<id>[^\\/\\?]*)/(?P<id>[^\\/\\?]*)/?".toList)
      = .error ("redefinition of group name id") := by
    simp [reGroupIndex, validGroupName, List.takeWhile, List.dropWhile]
  refine ⟨?_, ?_, ?_⟩
  · exact ((c4_definition_error _ badPathHandler).1 [['i', 'd']] hok).1.mpr
      (by simp [pathArgViolation, contractParams, badPathHandler, List.find?])
  · exact ((c4_definition_error _ usersHandler).1 [['i', 'd']] hok).2
      (by simp [pathArgViolation, contractParams, usersHandler, List.find?])
  · exact (c4_definition_error _ usersHandler).2 _ herr

/-- C10: the configuration dict is one class-level attribute shared by
every `CalmApp` instance: `configure` called on any instance updates
the dict that every other existing instance and every future instance
reads, including its `error_key` entry; reading the configuration never
depends on which instance it is read through. -/
theorem c10_shared_config (w : PyWorld) (a b : CalmAppInst)
    (kwargs : List (String × String)) :
    CalmApp.readConfig (CalmApp.configure w a kwargs) b = dictUpdate w.classConfig kwargs
    ∧ CalmApp.readConfig (CalmApp.configure w a kwargs) CalmApp.newApp
        = dictUpdate w.classConfig kwargs
    ∧ CalmApp.readConfig (CalmApp.configure w a kwargs) b
        = CalmApp.readConfig (CalmApp.configure w a kwargs) a
    ∧ (∀ v : String, List.lookup "error_key"
        (CalmApp.readConfig (CalmApp.configure w a [("error_key", v)]) b) = some v) :=
  ⟨rfl, rfl, rfl, fun v => lookup_dictSet_self w.classConfig "error_key" v⟩

/-- C7 (counterexample): the claim's "every `:name` occurrence is
rewritten to a named capture" fails when one capture name is a proper
prefix of another: compiling the fragments `[":a/:ab"]` replaces the
`:a` inside `:ab` first, so `:ab` never becomes a capture named `ab`,
and the source's output differs from the spec-shaped pattern. -/
theorem c7_counterexample :
    normalizeUri [":a/:ab"] ≠ normalizeUriSpec [":a/:ab"] := by
  have h1 : normalizeUri [":a/:ab"]
      = "/(?P<a>[^\\/\\?]*)/(?P<a>[^\\/\\?]*)b/?" := by
    simp [normalizeUri, preUri, joinFragments, stripSlashes, findall, nameChar,
      List.takeWhile, List.dropWhile, replaceAll, captureOf]
  have h2 : normalizeUriSpec [":a/:ab"]
      = "/(?P<a>[^\\/\\?]*)/(?P<ab>[^\\/\\?]*)/?" := by
    simp [normalizeUriSpec, preUri, joinFragments, stripSlashes, specRewrite, nameChar,
      List.takeWhile, List.dropWhile, captureOf]
  rw [h1, h2]
  decide

/-- C7 (amended): path compilation is deterministic — it is a pure
function of the fragment tuple — and, provided no capture name of the
template is a proper prefix of another, the compiled pattern has
exactly the claimed shape: fragments joined with `/`, stripped of
outer slashes, prefixed with `/`, suffixed with `/?`, and every
`:name` occurrence rewritten to the named capture
`(?P<name>[^\\/\\?]*)` (the shape `normalizeUriSpec` spells out). -/
theorem c7_template_compilation (frags : List String)
    (hpf : prefixFree (findall (preUri frags))) :
    normalizeUri frags = normalizeUriSpec frags :=
  normalizeUri_eq_spec_of_prefixFree frags hpf

/-- Witness for C7: the template `users/:id` satisfies the proviso and
compiles to the spec-shaped pattern. -/
theorem c7_template_compilation_witness :
    prefixFree (findall (preUri ["users/:id"]))
      ∧ normalizeUri ["users/:id"] = normalizeUriSpec ["users/:id"] := by
  have hpf : prefixFree (findall (preUri ["users/:id"])) := by
    have h : findall (preUri ["users/:id"]) = [['i', 'd']] := by
      simp [findall, preUri, joinFragments, stripSlashes, nameChar,
        List.takeWhile, List.dropWhile]
    rw [h]
    decide
  exact ⟨hpf, c7_template_compilation ["users/:id"] hpf⟩

/-- C2: for a registered route, the query arguments are exactly the
non-path contract parameters, each required exactly when it declares no
default (part 1); a request omitting a required query argument fails
with BadRequestError / status 400 before any handler invocation
(part 2); a request omitting an optional query argument is served with
the handler invoked and that parameter bound to its declared default
value (part 3). -/
theorem c2_query_arguments (uri : String) (h : Handler) (hd : HandlerDef)
    (hmk : HandlerDef.make uri h = .ok hd) :
    (∀ q r, (q, r) ∈ hd.queryArgs
      ↔ ∃ p ∈ contractParams h, p.name = q
          ∧ hd.pathArgs.contains q = false ∧ r = p.dflt.isNone)
    ∧ (∀ (jsonLoads : String → Option PyVal) pathKwargs req q,
        (q, true) ∈ hd.queryArgs → req.getQueryArgument q = none →
        ∃ msg, handleRequest jsonLoads (some hd) pathKwargs req
            = ⟨.error (.BadRequestError msg), false, []⟩
          ∧ ∀ ek, (finalize ek (handleRequest jsonLoads (some hd) pathKwargs req)).status = 400
              ∧ (finalize ek (handleRequest jsonLoads (some hd) pathKwargs req)).invoked = false)
    ∧ (∀ (jsonLoads : String → Option PyVal) pathKwargs req q p d qargs kwargs' body,
        (q, false) ∈ hd.queryArgs →
        req.getQueryArgument q = none →
        getQueryArgs req hd.queryArgs = .ok qargs →
        castArgs h (assembleKwargs pathKwargs qargs) = .ok kwargs' →
        parseBody jsonLoads req = .ok body →
        List.lookup q (pathKwargs.map (fun kv => (kv.1, PyVal.str kv.2))) = none →
        (contractParams h).find? (fun p' => p'.name == q) = some p →
        p.dflt = some d →
        handleRequest jsonLoads (some hd) pathKwargs req
            = ⟨.ok (h.run body (boundArgs h kwargs')), true,
               if h.isCoroutine then [] else [notCoroutineWarning h.name]⟩
          ∧ List.lookup q (boundArgs h kwargs') = some d) := by
  obtain ⟨huri, hh, hqa, -⟩ := HandlerDef.make_ok_inv hmk
  refine ⟨?_, ?_, ?_⟩
  · intro q r
    rw [hqa]
    exact mem_extractQueryArgs _ _ q r
  · intro jsonLoads pathKwargs req q hmem hnone
    obtain ⟨msg, hmsg⟩ := getQueryArgs_error_of_missing_required req hmem hnone
    refine ⟨msg, ?_, ?_⟩
    · simp [handleRequest, hmsg]
    · intro ek
      constructor <;>
        simp [handleRequest, hmsg, finalize, writeError,
          CalmError.isClientError, CalmError.code]
  · intro jsonLoads pathKwargs req q p d qargs kwargs' body
      hmem hnone hq hcast hbody hplkp hfind hdflt
    have hbase := not_mem_of_lookup_eq_none hplkp
    have hupd : ∀ v, (q, v) ∉ qargs.map (fun kv => (kv.1, PyVal.str kv.2)) := by
      intro v hv
      obtain ⟨v', hv'⟩ := mem_map_keys hv
      exact getQueryArgs_not_mem_of_missing req hq hnone v' hv'
    have hassemble : List.lookup q (assembleKwargs pathKwargs qargs) = none := by
      apply lookup_eq_none_of_not_mem
      intro v hv
      rcases mem_dictUpdate hv with ⟨v', hv'⟩ | ⟨v', hv'⟩
      · exact hbase v' hv'
      · exact hupd v' hv'
    have hkwargs : List.lookup q kwargs' = none :=
      castArgs_lookup_none h hcast hassemble
    have hpq : p.name = q := eq_of_beq (by
      have := List.find?_some hfind
      exact this)
    constructor
    · simp [handleRequest, hq, hh, hcast, hbody]
    · unfold boundArgs
      rw [lookup_map_params, hfind]
      simp only [Option.map_some']
      rw [hpq, hkwargs, hdflt]
      rfl

/-- Witness for C2: on the route of `queryHandler` (required `q`,
optional `opt` defaulting to `"d"`), the empty request yields
BadRequestError / 400, and a request supplying only `q` is served with
`opt` bound to the recorded default. -/
theorem c2_query_arguments_witness :
    (∃ msg, handleRequest sampleJsonLoads (some queryHd) [] emptyReq
        = ⟨.error (.BadRequestError msg), false, []⟩)
    ∧ (finalize "error" (handleRequest sampleJsonLoads (some queryHd) [] emptyReq)).status
        = 400
    ∧ handleRequest sampleJsonLoads (some queryHd) [] optReq
        = ⟨.ok (queryHandler.run (.raw "")
            (boundArgs queryHandler [("q", PyVal.str "1")])), true, []⟩
    ∧ List.lookup "opt" (boundArgs queryHandler [("q", PyVal.str "1")])
        = some (PyVal.str "d") := by
  have hmk : HandlerDef.make "/q/?" queryHandler = .ok queryHd := by
    simp [HandlerDef.make, reGroupIndex, validGroupName, extractPathArgsCheck,
      extractQueryArgs, contractParams, queryHandler, queryHd,
      List.takeWhile, List.dropWhile]
  have hc := c2_query_arguments "/q/?" queryHandler queryHd hmk
  obtain ⟨msg, hmsg, hstat⟩ := hc.2.1 sampleJsonLoads [] emptyReq "q"
    (by decide) (by rfl)
  have h3 := hc.2.2 sampleJsonLoads [] optReq "opt"
    ⟨"opt", some (PyVal.str "d"), none⟩ (PyVal.str "d")
    [("q", "1")] [("q", PyVal.str "1")] (.raw "")
    (by decide) (by rfl) (by rfl) (by rfl) (by rfl) (by rfl) (by rfl) (by rfl)
  exact ⟨⟨msg, hmsg⟩, (hstat "error").1, h3.1, h3.2⟩

/-- C3: `_cast_args` coerces every argument whose handler parameter
carries a declared annotation through the argument parser and leaves
unannotated arguments untouched; every coercion failure is a
client-classified BadRequestError, so the request fails with status
400 — never 500 — without invoking the handler. -/
theorem c3_type_coercion (h : Handler) :
    (∀ args out q, castArgs h args = .ok out → h.annotOf q = none →
      List.lookup q out = List.lookup q args)
    ∧ (∀ args out q t v, castArgs h args = .ok out → h.annotOf q = some t →
        List.lookup q args = some v →
        ∃ v', ArgumentParser.parse t v = .ok v' ∧ List.lookup q out = some v')
    ∧ (∀ (jsonLoads : String → Option PyVal) (hd : HandlerDef) pathKwargs req qargs e,
        hd.handler = h →
        getQueryArgs req hd.queryArgs = .ok qargs →
        castArgs h (assembleKwargs pathKwargs qargs) = .error e →
        ∃ m, e = .BadRequestError m
          ∧ handleRequest jsonLoads (some hd) pathKwargs req
              = ⟨.error (.BadRequestError m), false, []⟩
          ∧ ∀ ek,
              (finalize ek (handleRequest jsonLoads (some hd) pathKwargs req)).status = 400
              ∧ (finalize ek (handleRequest jsonLoads (some hd) pathKwargs req)).status
                  ≠ 500
              ∧ (finalize ek (handleRequest jsonLoads (some hd) pathKwargs req)).invoked
                  = false) := by
  refine ⟨?_, ?_, ?_⟩
  · intro args out q hc hq
    exact castArgs_lookup_unannotated h hc hq
  · intro args out q t v hc hq hl
    exact castArgs_lookup_annotated h hc hq hl
  · intro jsonLoads hd pathKwargs req qargs e hh hq hcast
    obtain ⟨m, rfl⟩ := castArgs_error_isBadRequest h hcast
    refine ⟨m, rfl, ?_, ?_⟩
    · simp [handleRequest, hq, hh, hcast]
    · intro ek
      refine ⟨?_, ?_, ?_⟩ <;>
        simp [handleRequest, hq, hh, hcast, finalize, writeError,
          CalmError.isClientError, CalmError.code]

/-- Witness for C3: on `typedHandler` (integer-annotated `n`,
unannotated `raw`), casting `n="42", raw="z"` coerces `n` to the
integer 42 and passes `raw` through; dispatching `n="abc"` yields
BadRequestError / 400 (not 500) with the handler never invoked. -/
theorem c3_type_coercion_witness :
    List.lookup "raw" [("n", PyVal.int 42), ("raw", PyVal.str "z")]
        = List.lookup "raw" [("n", PyVal.str "42"), ("raw", PyVal.str "z")]
    ∧ (∃ v', ArgumentParser.parse TypeTag.tInt (PyVal.str "42") = .ok v'
        ∧ List.lookup "n" [("n", PyVal.int 42), ("raw", PyVal.str "z")] = some v')
    ∧ (∃ m, handleRequest sampleJsonLoads (some typedHd) [] badIntReq
          = ⟨.error (.BadRequestError m), false, []⟩)
    ∧ (finalize "error" (handleRequest sampleJsonLoads (some typedHd) [] badIntReq)).status
        = 400
    ∧ (finalize "error" (handleRequest sampleJsonLoads (some typedHd) [] badIntReq)).status
        ≠ 500 := by
  have hcastok : castArgs typedHandler [("n", PyVal.str "42"), ("raw", PyVal.str "z")]
      = .ok [("n", PyVal.int 42), ("raw", PyVal.str "z")] := by
    simp [castArgs, typedHandler, Handler.annotOf, ArgumentParser.parse,
      parseIntStr, digitsVal]
  have hcastbad : ∃ e, castArgs typedHandler
      (assembleKwargs [] [("n", "abc"), ("raw", "z")]) = .error e := by
    simp [castArgs, typedHandler, Handler.annotOf, ArgumentParser.parse,
      parseIntStr, assembleKwargs, dictUpdate, dictSet]
  obtain ⟨e, he⟩ := hcastbad
  have hc := c3_type_coercion typedHandler
  have h1 := hc.1 [("n", PyVal.str "42"), ("raw", PyVal.str "z")]
    [("n", PyVal.int 42), ("raw", PyVal.str "z")] "raw" hcastok (by rfl)
  have h2 := hc.2.1 [("n", PyVal.str "42"), ("raw", PyVal.str "z")]
    [("n", PyVal.int 42), ("raw", PyVal.str "z")] "n" TypeTag.tInt (PyVal.str "42")
    hcastok (by rfl) (by rfl)
  have h3 := hc.2.2 sampleJsonLoads typedHd [] badIntReq [("n", "abc"), ("raw", "z")] e
    (by rfl) (by rfl) he
  obtain ⟨m, -, hrun, hfin⟩ := h3
  exact ⟨h1, h2, ⟨m, hrun⟩, (hfin "error").1, (hfin "error").2.1⟩

/-- C5: a handler return value with no viable JSON serialization makes
`_write_response` raise ServerError, which `write_error` masks: the
response has status 500 and a body that is exactly the configured error
key mapped to the fixed generic message, independent of the value — so
the value's real type name (and the original ServerError detail naming
it) never reaches the client unless it already occurs in that fixed
envelope. -/
theorem c5_unserializable_masked (ek : String) (v : PyVal) (inv : Bool)
    (w : List String) (hfail : (jsonResult v).dumps = none) :
    finalize ek ⟨.ok v, inv, w⟩
      = ⟨500, jsonEnvelope ek genericServerMessage, inv, w⟩
    ∧ (containsSeq v.pyTypeName.toList (jsonEnvelope ek genericServerMessage).toList
          = false →
        containsSeq v.pyTypeName.toList (finalize ek ⟨.ok v, inv, w⟩).body.toList
          = false) := by
  have hw : writeResponse v
      = .error (.ServerError ("Could not serialize " ++ v.pyTypeName ++ " to JSON")) := by
    simp [writeResponse, hfail]
  constructor
  · simp [finalize, hw, writeError, CalmError.isClientError]
  · intro hno
    simpa [finalize, hw, writeError, CalmError.isClientError] using hno

/-- Witness for C5: a handler returning an instance of the user class
`MyModel` (no `__json__`) yields status 500 with the fixed envelope,
and the type name does not occur in the body. -/
theorem c5_unserializable_masked_witness :
    finalize "error" ⟨.ok (PyVal.obj "MyModel" none), true, []⟩
      = ⟨500, jsonEnvelope "error" genericServerMessage, true, []⟩
    ∧ containsSeq (PyVal.obj "MyModel" none).pyTypeName.toList
        (finalize "error" ⟨.ok (PyVal.obj "MyModel" none), true, []⟩).body.toList
      = false := by
  have h := c5_unserializable_masked "error" (PyVal.obj "MyModel" none) true [] (by rfl)
  exact ⟨h.1, h.2 (by decide)⟩

/-- C6: a request with a non-empty body has it parsed as JSON before
the handler is invoked — a body the decoder cannot parse fails with
BadRequestError / 400 and the handler is never invoked — while a
request with an empty body skips parsing entirely: the pipeline is
independent of the decoder and the handler receives the raw (empty)
bytes. -/
theorem c6_body_parsing (jsonLoads jsonLoads' : String → Option PyVal)
    (hd : HandlerDef) (pathKwargs : List (String × String)) (req : Request) :
    (req.body ≠ "" → jsonLoads req.body = none →
      ∀ qargs kwargs', getQueryArgs req hd.queryArgs = .ok qargs →
        castArgs hd.handler (assembleKwargs pathKwargs qargs) = .ok kwargs' →
        handleRequest jsonLoads (some hd) pathKwargs req
          = ⟨.error (.BadRequestError "Malformed request body. JSON is expected."),
              false, []⟩
        ∧ ∀ ek,
            (finalize ek (handleRequest jsonLoads (some hd) pathKwargs req)).status = 400)
    ∧ (req.body = "" →
        handleRequest jsonLoads (some hd) pathKwargs req
          = handleRequest jsonLoads' (some hd) pathKwargs req
        ∧ ∀ qargs kwargs', getQueryArgs req hd.queryArgs = .ok qargs →
            castArgs hd.handler (assembleKwargs pathKwargs qargs) = .ok kwargs' →
            handleRequest jsonLoads (some hd) pathKwargs req
              = ⟨.ok (hd.handler.run (.raw "") (boundArgs hd.handler kwargs')), true,
                 if hd.handler.isCoroutine then []
                 else [notCoroutineWarning hd.handler.name]⟩) := by
  constructor
  · intro hne hload qargs kwargs' hq hcast
    have hbody : parseBody jsonLoads req
        = .error (.BadRequestError "Malformed request body. JSON is expected.") := by
      simp [parseBody, hne, hload]
    constructor
    · simp [handleRequest, hq, hcast, hbody]
    · intro ek
      simp [handleRequest, hq, hcast, hbody, finalize, writeError,
        CalmError.isClientError, CalmError.code]
  · intro hempty
    constructor
    · simp [handleRequest, parseBody, hempty]
    · intro qargs kwargs' hq hcast
      have hbody : parseBody jsonLoads req = .ok (.raw "") := by
        simp [parseBody, hempty]
      simp [handleRequest, hq, hcast, hbody]

/-- Witness for C6: on the registered no-argument route, the body
`"nope"` yields BadRequestError / 400 with no invocation, and the
empty-bodied request is served identically under two different
decoders, the handler receiving the raw empty body. -/
theorem c6_body_parsing_witness :
    handleRequest sampleJsonLoads (some sampleHd) [] malformedReq
      = ⟨.error (.BadRequestError "Malformed request body. JSON is expected."),
          false, []⟩
    ∧ (finalize "error"
        (handleRequest sampleJsonLoads (some sampleHd) [] malformedReq)).status = 400
    ∧ handleRequest sampleJsonLoads (some sampleHd) [] emptyReq
        = handleRequest (fun _ => some PyVal.pyNone) (some sampleHd) [] emptyReq
    ∧ handleRequest sampleJsonLoads (some sampleHd) [] emptyReq
        = ⟨.ok (plainHandler.run (.raw "") (boundArgs plainHandler [])), true, []⟩ := by
  have h1 := (c6_body_parsing sampleJsonLoads (fun _ => some PyVal.pyNone)
    sampleHd [] malformedReq).1 (by simp [malformedReq]) (by rfl) [] []
    (by rfl) (by rfl)
  have h2 := (c6_body_parsing sampleJsonLoads (fun _ => some PyVal.pyNone)
    sampleHd [] emptyReq).2 (by rfl)
  exact ⟨h1.1, h1.2 "error", h2.1, h2.2 [] [] (by rfl) (by rfl)⟩

/-- C8 (counterexample): registration records no calling-convention
data — `HandlerDef` extraction yields identical contracts for two
handlers that differ only in being a coroutine — yet the dispatch
output differs between the two (the non-coroutine run logs the
handler.py line 109 warning), so the dispatcher consults the
convention per request, at dispatch time, not once at registration. -/
theorem c8_counterexample :
    (HandlerDef.make "/x/?" syncConvHandler).map
        (fun d => (d.uri, d.pathArgs, d.queryArgs, d.consumes, d.produces))
      = (HandlerDef.make "/x/?" asyncConvHandler).map
        (fun d => (d.uri, d.pathArgs, d.queryArgs, d.consumes, d.produces))
    ∧ syncConvHandler.run = asyncConvHandler.run
    ∧ handleRequest sampleJsonLoads
        (some ⟨"/x/?", syncConvHandler, [], [], none, none⟩) [] emptyReq
      ≠ handleRequest sampleJsonLoads
        (some ⟨"/x/?", asyncConvHandler, [], [], none, none⟩) [] emptyReq := by
  refine ⟨?_, rfl, ?_⟩
  · simp [HandlerDef.make, reGroupIndex, validGroupName, extractPathArgsCheck,
      extractQueryArgs, contractParams, syncConvHandler, asyncConvHandler,
      List.takeWhile, List.dropWhile, Except.map]
  · have e1 : handleRequest sampleJsonLoads
        (some ⟨"/x/?", syncConvHandler, [], [], none, none⟩) [] emptyReq
        = ⟨.ok PyVal.pyNone, true, [notCoroutineWarning "h_conv"]⟩ := rfl
    have e2 : handleRequest sampleJsonLoads
        (some ⟨"/x/?", asyncConvHandler, [], [], none, none⟩) [] emptyReq
        = ⟨.ok PyVal.pyNone, true, []⟩ := rfl
    rw [e1, e2]
    intro hcontra
    have hw := congrArg RunResult.warnings hcontra
    simp at hw

/-- C8 (amended): synchronous and asynchronous handlers are both
dispatched transparently — under the same successful pipeline the
response is the handler's result either way — but the calling
convention is inspected per request: `_handle_request` branches on
`iscoroutinefunction` at dispatch time (its warning output is computed
from it), while registration records nothing derived from it (the
extracted contract is invariant under the convention flag). -/
theorem c8_calling_convention (uri hname : String) (params : List Param)
    (run : BodyState → List (String × PyVal) → PyVal) (b1 b2 : Bool) :
    (HandlerDef.make uri ⟨hname, params, b1, run⟩).map
        (fun d => (d.uri, d.pathArgs, d.queryArgs, d.consumes, d.produces))
      = (HandlerDef.make uri ⟨hname, params, b2, run⟩).map
        (fun d => (d.uri, d.pathArgs, d.queryArgs, d.consumes, d.produces))
    ∧ (∀ (jsonLoads : String → Option PyVal) (hd : HandlerDef)
          pathKwargs req qargs kwargs' body,
        getQueryArgs req hd.queryArgs = .ok qargs →
        castArgs hd.handler (assembleKwargs pathKwargs qargs) = .ok kwargs' →
        parseBody jsonLoads req = .ok body →
        handleRequest jsonLoads (some hd) pathKwargs req
          = ⟨.ok (hd.handler.run body (boundArgs hd.handler kwargs')), true,
             if hd.handler.isCoroutine then []
             else [notCoroutineWarning hd.handler.name]⟩) := by
  constructor
  · rcases hgi : reGroupIndex [] uri.data with msg | names
    · simp [HandlerDef.make, hgi, Except.map]
    · rcases hex : extractPathArgsCheck hname params.tail
          (names.map String.mk) with e | u
      · simp [HandlerDef.make, contractParams, hgi, hex, Except.map]
      · cases u
        simp [HandlerDef.make, contractParams, hgi, hex, Except.map]
  · intro jsonLoads hd pathKwargs req qargs kwargs' body hq hcast hbody
    simp [handleRequest, hq, hcast, hbody]

/-- Witness for C8 (amended): the two sample handlers differing only in
convention extract the same contract, and both are served with the
handler's result — the coroutine silently, the plain function with the
warning computed at dispatch. -/
theorem c8_calling_convention_witness :
    (HandlerDef.make "/x/?" syncConvHandler).map
        (fun d => (d.uri, d.pathArgs, d.queryArgs, d.consumes, d.produces))
      = (HandlerDef.make "/x/?" asyncConvHandler).map
        (fun d => (d.uri, d.pathArgs, d.queryArgs, d.consumes, d.produces))
    ∧ handleRequest sampleJsonLoads
        (some ⟨"/x/?", syncConvHandler, [], [], none, none⟩) [] emptyReq
        = ⟨.ok PyVal.pyNone, true, [notCoroutineWarning "h_conv"]⟩
    ∧ handleRequest sampleJsonLoads
        (some ⟨"/x/?", asyncConvHandler, [], [], none, none⟩) [] emptyReq
        = ⟨.ok PyVal.pyNone, true, []⟩ := by
  have h := c8_calling_convention "/x/?" "h_conv" [⟨"self", none, none⟩] convRun
    false true
  refine ⟨h.1, ?_, ?_⟩
  · exact h.2 sampleJsonLoads ⟨"/x/?", syncConvHandler, [], [], none, none⟩
      [] emptyReq [] [] (.raw "") (by rfl) (by rfl) (by rfl)
  · exact h.2 sampleJsonLoads ⟨"/x/?", asyncConvHandler, [], [], none, none⟩
      [] emptyReq [] [] (.raw "") (by rfl) (by rfl) (by rfl)

/-- C9 (counterexample): `_add_route` treats redefinition neither as an
error nor as an explicit override: registering a second handler for the
already-registered pair (`/x/?`, GET) succeeds silently and the route
map then holds the second handler's contract wholesale — last
registration wins. (The contracts are indeed not merged: the first
handler's required query argument `a` is gone.) -/
theorem c9_counterexample :
    twiceRegistered.toOption.isSome = true
    ∧ (twiceRegistered.toOption.bind
        (fun rm => (List.lookup "/x/?" rm).bind (List.lookup "get"))).map
        (fun d => (d.handler.name, d.queryArgs))
      = some ("h_second", [("b", false)]) := by
  have h : twiceRegistered
      = .ok [("/x/?", [("get",
          ⟨"/x/?", secondHandler, [], [("b", false)], none, none⟩)])] := by
    simp [twiceRegistered, addRoute, normalizeUri, preUri, joinFragments,
      stripSlashes, findall, replaceAll, captureOf, nameChar,
      List.takeWhile, List.dropWhile, HandlerDef.make, reGroupIndex,
      validGroupName, extractPathArgsCheck, extractQueryArgs, contractParams,
      firstHandler, secondHandler, dictSet, lowerStr, lowerChar]
  rw [h]
  constructor
  · rfl
  · rfl

/-- C9 (amended): registering a second handler for an
already-registered (pattern, method) pair silently replaces the first
— no error is raised and the final route map entry is exactly the
second registration's contract; the two contracts are never merged. -/
theorem c9_silent_last_wins (rm : List (String × List (String × HandlerDef)))
    (m : String) (h1 h2 : Handler) (frags : List String)
    (c1 p1 c2 p2 : Option String)
    (rm1 rm2 : List (String × List (String × HandlerDef)))
    (_hr1 : addRoute rm m h1 frags c1 p1 = .ok rm1)
    (hr2 : addRoute rm1 m h2 frags c2 p2 = .ok rm2) :
    ∃ hd2, HandlerDef.make (normalizeUri frags) h2 = .ok hd2
      ∧ (List.lookup (normalizeUri frags) rm2).bind (List.lookup (lowerStr m))
          = some { hd2 with consumes := c2, produces := p2 } := by
  rcases hmk : HandlerDef.make (normalizeUri frags) h2 with e | hd2
  · rw [addRoute, hmk] at hr2
    cases hr2
  · refine ⟨hd2, rfl, ?_⟩
    rw [addRoute, hmk] at hr2
    simp only [] at hr2
    cases hr2
    rw [lookup_dictSet_self]
    simp only [Option.some_bind]
    rw [lookup_dictSet_self]

/-- Witness for C9 (amended): after registering `firstHandler` and then
`secondHandler` for (["x"], GET), the route map entry is exactly the
second handler's contract. -/
theorem c9_silent_last_wins_witness :
    (List.lookup (normalizeUri ["x"])
        [("/x/?", [("get",
          (⟨"/x/?", secondHandler, [], [("b", false)], none, none⟩ : HandlerDef))])]).bind
      (List.lookup (lowerStr "GET"))
      = some ⟨"/x/?", secondHandler, [], [("b", false)], none, none⟩ := by
  have ha1 : addRoute [] "GET" firstHandler ["x"] none none
      = .ok [("/x/?", [("get",
          ⟨"/x/?", firstHandler, [], [("a", true)], none, none⟩)])] := by
    simp [addRoute, normalizeUri, preUri, joinFragments, stripSlashes, findall,
      replaceAll, captureOf, nameChar, List.takeWhile, List.dropWhile,
      HandlerDef.make, reGroupIndex, validGroupName, extractPathArgsCheck,
      extractQueryArgs, contractParams, firstHandler, dictSet, lowerStr, lowerChar]
  have ha2 : addRoute
      [("/x/?", [("get",
        (⟨"/x/?", firstHandler, [], [("a", true)], none, none⟩ : HandlerDef))])]
      "GET" secondHandler ["x"] none none
      = .ok [("/x/?", [("get",
          ⟨"/x/?", secondHandler, [], [("b", false)], none, none⟩)])] := by
    simp [addRoute, normalizeUri, preUri, joinFragments, stripSlashes, findall,
      replaceAll, captureOf, nameChar, List.takeWhile, List.dropWhile,
      HandlerDef.make, reGroupIndex, validGroupName, extractPathArgsCheck,
      extractQueryArgs, contractParams, secondHandler, dictSet, lowerStr, lowerChar]
  obtain ⟨hd2, hmk2, hlk⟩ := c9_silent_last_wins [] "GET" firstHandler secondHandler
    ["x"] none none none none _ _ ha1 ha2
  have hmk : HandlerDef.make (normalizeUri ["x"]) secondHandler
      = .ok ⟨"/x/?", secondHandler, [], [("b", false)], none, none⟩ := by
    simp [normalizeUri, preUri, joinFragments, stripSlashes, findall, replaceAll,
      captureOf, nameChar, List.takeWhile, List.dropWhile, HandlerDef.make,
      reGroupIndex, validGroupName, extractPathArgsCheck, extractQueryArgs,
      contractParams, secondHandler]
  have hhd : hd2 = ⟨"/x/?", secondHandler, [], [("b", false)], none, none⟩ :=
    Except.ok.inj (hmk2.symm.trans hmk)
  rw [hhd] at hlk
  exact hlk
